import Mathlib

/-!
Verification of the streaming header-summary parser
(`scripts/get_summary_from_txt.py`).

The parser reads a text report line by line.  A line `"<n>: <path>"` opens a
new record; inside a record, block markers gate a set of regex field
extractors; per-record state is finalized at the next record start or at end
of input, feeding global aggregates (`fs_all`, `FS_NOT_SAME_LIST`,
`electrodes_all`, `ELECTRODES_NOT_UNIQUE_LIST`).

Lines are modelled as `List Char`; the Python regexes are translated into
deterministic matchers (each regex here is anchored-deterministic, so greedy
matching coincides with the straightforward scan); Python floats are modelled
as rationals; Python dict / defaultdict / Counter are modelled as association
lists with insertion-order semantics.  Character classes use the ASCII
ranges, matching the regexes' behaviour on ASCII input.

Fields prefixed `ghost_` are observers used only to state specifications:
they record events (record starts, header-frequency events, tokens collected
by the current record, finalized label batches) and never influence the
parser's behaviour.
-/

set_option maxRecDepth 10000

/-- ASCII lowercase, as used by `re.IGNORECASE` / `str.lower` on ASCII. -/
def pyLower (c : Char) : Char :=
  if 65 ≤ c.toNat ∧ c.toNat ≤ 90 then Char.ofNat (c.toNat + 32) else c

/-- ASCII uppercase, as used by `str.upper` on ASCII. -/
def pyUpper (c : Char) : Char :=
  if 97 ≤ c.toNat ∧ c.toNat ≤ 122 then Char.ofNat (c.toNat - 32) else c

/-- Python `\s` / `str.strip` whitespace (ASCII part). -/
def pyIsSpace (c : Char) : Bool :=
  c.toNat = 32 || c.toNat = 9 || c.toNat = 10 || c.toNat = 13 ||
  c.toNat = 11 || c.toNat = 12

/-- Python `\d` (ASCII digits). -/
def isDig (c : Char) : Bool := 48 ≤ c.toNat && c.toNat ≤ 57

/-- Python `\w` word character (ASCII): letters, digits, underscore. -/
def isWordChar (c : Char) : Bool :=
  isDig c || (65 ≤ c.toNat && c.toNat ≤ 90) ||
  (97 ≤ c.toNat && c.toNat ≤ 122) || c.toNat = 95

/-- A character counted by the `re.search(r'[A-Z]', norm)` guard. -/
def isUpperAZ (c : Char) : Bool := 65 ≤ c.toNat && c.toNat ≤ 90

/-- Python `str.strip()` (ASCII whitespace). -/
def pyStrip (s : List Char) : List Char :=
  ((s.dropWhile pyIsSpace).reverse.dropWhile pyIsSpace).reverse

/-- Case-insensitively match the literal `pat` at the start of `s`;
return the rest of `s` on success. -/
def dropCI : List Char → List Char → Option (List Char)
  | [], s => some s
  | _ :: _, [] => none
  | p :: ps, c :: cs => if pyLower p = pyLower c then dropCI ps cs else none

/-- Does `pat` occur at the start of `s` (case-sensitive)? -/
def isStartOf : List Char → List Char → Bool
  | [], _ => true
  | _ :: _, [] => false
  | p :: ps, c :: cs => p = c && isStartOf ps cs

/-- Does `pat` occur as a contiguous sublist of `s`?  (Python `in`.) -/
def containsSub (pat : List Char) : List Char → Bool
  | [] => isStartOf pat []
  | c :: cs => isStartOf pat (c :: cs) || containsSub pat cs

/-- Numeric value of a digit string. -/
def natOfDigits (ds : List Char) : Nat :=
  ds.foldl (fun n c => 10 * n + (c.toNat - 48)) 0

/-- Match `([0-9]+(?:\.[0-9]+)?)` at the start of `s`: the numeric value
(as an exact rational, modelling the parsed Python float) and the rest.
The value of `a.b` is `(a * 10^k + b) / 10^k`, built with `mkRat` so that
it evaluates by kernel reduction. -/
def numberMatch (s : List Char) : Option (ℚ × List Char) :=
  let ds := s.takeWhile isDig
  if ds.isEmpty then none else
  match s.dropWhile isDig with
  | '.' :: r2 =>
    let fs := r2.takeWhile isDig
    if fs.isEmpty then some (mkRat (natOfDigits ds) 1, '.' :: r2)
    else
      let den : Nat := 10 ^ fs.length
      some (mkRat (Int.ofNat (natOfDigits ds * den + natOfDigits fs)) den,
            r2.dropWhile isDig)
  | r => some (mkRat (natOfDigits ds) 1, r)

/-- `re_file_start = ^\s*\d+:\s*(\S.*)$` — returns capture group 1. -/
def fileStartMatch (line : List Char) : Option (List Char) :=
  let t := line.dropWhile pyIsSpace
  let ds := t.takeWhile isDig
  if ds.isEmpty then none else
  match t.dropWhile isDig with
  | ':' :: r2 =>
    let cap := r2.dropWhile pyIsSpace
    if cap.isEmpty then none else some cap
  | _ => none

/-- `re_block_start = ^\s*Block\s+(\d+)\s*:` (ignorecase) — block number. -/
def blockStartMatch (line : List Char) : Option Nat :=
  match dropCI "Block".data (line.dropWhile pyIsSpace) with
  | none => none
  | some r =>
    if (r.takeWhile pyIsSpace).isEmpty then none else
    let r2 := r.dropWhile pyIsSpace
    let ds := r2.takeWhile isDig
    if ds.isEmpty then none else
    match (r2.dropWhile isDig).dropWhile pyIsSpace with
    | ':' :: _ => some (natOfDigits ds)
    | _ => none

/-- The implicit block-6 markers: `'derived values' in low` or
`'per channel sample frequencies' in low` on the lowercased line. -/
def phraseBlock6 (line : List Char) : Bool :=
  let low := line.map pyLower
  containsSub "derived values".data low ||
  containsSub "per channel sample frequencies".data low

/-- `re_hdr_fs = ^\s*hdr_sample_frequency\s*=\s*([0-9]+(?:\.[0-9]+)?)`
(ignorecase) — the parsed frequency. -/
def hdrMatch (line : List Char) : Option ℚ :=
  match dropCI "hdr_sample_frequency".data (line.dropWhile pyIsSpace) with
  | none => none
  | some r =>
    match r.dropWhile pyIsSpace with
    | '=' :: r2 =>
      match numberMatch (r2.dropWhile pyIsSpace) with
      | some (v, _) => some v
      | none => none
    | _ => none

/-- `re_channel_fs_with_label =
^\s*channel\[\s*\d+\]\s*:\s*([0-9]+(?:\.[0-9]+)?)\s*Hz\s*\((.*?)\)`
(ignorecase) — the frequency and the (non-greedy) parenthetical capture. -/
def channelLabelMatch (line : List Char) : Option (ℚ × List Char) :=
  match dropCI "channel".data (line.dropWhile pyIsSpace) with
  | none => none
  | some r =>
    match r with
    | '[' :: r1 =>
      let r2 := r1.dropWhile pyIsSpace
      if (r2.takeWhile isDig).isEmpty then none else
      match r2.dropWhile isDig with
      | ']' :: r3 =>
        match r3.dropWhile pyIsSpace with
        | ':' :: r4 =>
          match numberMatch (r4.dropWhile pyIsSpace) with
          | none => none
          | some (v, r5) =>
            match dropCI "Hz".data (r5.dropWhile pyIsSpace) with
            | none => none
            | some r6 =>
              match r6.dropWhile pyIsSpace with
              | '(' :: r7 =>
                let lab := r7.takeWhile (fun c => !(c = ')' : Bool))
                match r7.dropWhile (fun c => !(c = ')' : Bool)) with
                | ')' :: _ => some (v, lab)
                | _ => none
              | _ => none
        | _ => none
      | _ => none
    | _ => none

/-- `re_channel_fs = ^\s*channel\[\s*\d+\]\s*:\s*([0-9]+(?:\.[0-9]+)?)\s*Hz`
(ignorecase) — the fallback channel line without a required parenthetical. -/
def channelPlainMatch (line : List Char) : Bool :=
  match dropCI "channel".data (line.dropWhile pyIsSpace) with
  | none => false
  | some r =>
    match r with
    | '[' :: r1 =>
      let r2 := r1.dropWhile pyIsSpace
      if (r2.takeWhile isDig).isEmpty then false else
      match r2.dropWhile isDig with
      | ']' :: r3 =>
        match r3.dropWhile pyIsSpace with
        | ':' :: r4 =>
          match numberMatch (r4.dropWhile pyIsSpace) with
          | none => false
          | some (_, r5) => (dropCI "Hz".data (r5.dropWhile pyIsSpace)).isSome
        | _ => false
      | _ => false
    | _ => false

/-- `re_chan_labels_start = ^\s*chan_labels\s*\(\s*\d+\s*\)\s*=\s*(.*)`
(ignorecase) — capture group 1 (the rest of the line after `=`). -/
def chanLabelsStart (line : List Char) : Option (List Char) :=
  match dropCI "chan_labels".data (line.dropWhile pyIsSpace) with
  | none => none
  | some r =>
    match r.dropWhile pyIsSpace with
    | '(' :: r1 =>
      let r2 := r1.dropWhile pyIsSpace
      if (r2.takeWhile isDig).isEmpty then none else
      match (r2.dropWhile isDig).dropWhile pyIsSpace with
      | ')' :: r3 =>
        match r3.dropWhile pyIsSpace with
        | '=' :: r4 => some (r4.dropWhile pyIsSpace)
        | _ => none
      | _ => none
    | _ => none

/-- `re_chan_trans_type_start = ^\s*chan_trans_type` (ignorecase). -/
def chanTransMatch (line : List Char) : Bool :=
  (dropCI "chan_trans_type".data (line.dropWhile pyIsSpace)).isSome

/-- `re_bracket.findall`, i.e. all matches of `\[([^\]]+)\]`: scan left to
right; `buf = some acc` means we are inside an open bracket.  An empty
bracket pair yields no token; an unterminated bracket yields no token. -/
def bracketScan : Option (List Char) → List Char → List (List Char)
  | _, [] => []
  | none, c :: cs => if c = '[' then bracketScan (some []) cs else bracketScan none cs
  | some buf, c :: cs =>
    if c = ']' then
      if buf.isEmpty then bracketScan none cs else buf :: bracketScan none cs
    else bracketScan (some (buf ++ [c])) cs

def bracketTokens (s : List Char) : List (List Char) := bracketScan none s

/-- `normalize_label_preserve`: trim and uppercase, keeping prefixes and
suffixes verbatim. -/
def normalize_label_preserve (raw : List Char) : List Char :=
  (pyStrip raw).map pyUpper

/-- Tolerance used by `floats_all_equal` (`tol=1e-6`). -/
def fsTol : ℚ := mkRat 1 1000000

/-- Kernel-reducible rational subtraction (`Rat.sub` is `@[irreducible]`);
proven equal to `a - b` below. -/
def ratSub (a b : ℚ) : ℚ := mkRat (a.num * b.den - b.num * a.den) (a.den * b.den)

/-- Kernel-reducible rational absolute value; proven equal to `|q|` below. -/
def ratAbs (q : ℚ) : ℚ := mkRat q.num.natAbs q.den

/-- `floats_all_equal`: every element is within `fsTol` of the first
(`abs(x - first) > tol` never holds); vacuously true for the empty list. -/
def floats_all_equal (lst : List ℚ) : Bool :=
  match lst with
  | [] => true
  | first :: _ => lst.all (fun x => decide (ratAbs (ratSub x first) ≤ fsTol))

/-- Case-insensitive whole-word match of `kw` at the start of `s`
(the trailing `\b`; the leading `\b` is checked by the scanner). -/
def wordAt (kw : List Char) (s : List Char) : Bool :=
  match dropCI kw s with
  | none => false
  | some [] => true
  | some (c :: _) => !(isWordChar c)

/-- The `PULSE\s+RATE` alternative of the exclusion regex, matched at the
start of `s`. -/
def pulseRateAt (s : List Char) : Bool :=
  match dropCI "PULSE".data s with
  | none => false
  | some r =>
    if (r.takeWhile pyIsSpace).isEmpty then false
    else wordAt "RATE".data (r.dropWhile pyIsSpace)

/-- One alternative of
`\b(?:PULSE|PULSE\s+RATE|IBI|BURST|BURSTS|SUPPR|SUPPRESSION|RESP|PHOTIC|DC|LOC)\b`
matches at the start of `s` (trailing boundary included). -/
def excludeWordAt (s : List Char) : Bool :=
  wordAt "PULSE".data s || pulseRateAt s || wordAt "IBI".data s ||
  wordAt "BURST".data s || wordAt "BURSTS".data s || wordAt "SUPPR".data s ||
  wordAt "SUPPRESSION".data s || wordAt "RESP".data s ||
  wordAt "PHOTIC".data s || wordAt "DC".data s || wordAt "LOC".data s

/-- Scan `s` for a position with a leading word boundary where `atP` holds;
`prevW` records whether the previous character was a word character. -/
def scanWord (atP : List Char → Bool) : Bool → List Char → Bool
  | _, [] => false
  | prevW, c :: cs => (!prevW && atP (c :: cs)) || scanWord atP (isWordChar c) cs

/-- `re_exclude.search(s)`: some exclusion keyword occurs as a whole word. -/
def excludeSearch (s : List Char) : Bool := scanWord excludeWordAt false s

/-- One of `EEG`, `ECG`, `EKG` matches as a whole word at the start of `s`. -/
def eegWordAt (s : List Char) : Bool :=
  wordAt "EEG".data s || wordAt "ECG".data s || wordAt "EKG".data s

/-- `re.search(r'(?i)\b(EEG|ECG|EKG)\b', s)`. -/
def eegSearch (s : List Char) : Bool := scanWord eegWordAt false s

/-- `re.search(r'[A-Z]', s)`. -/
def hasUpperAZ (s : List Char) : Bool := s.any isUpperAZ

/-! ### Association lists modelling Python dict / defaultdict / Counter

Python dicts preserve insertion order: assignment to an existing key keeps
its position, a new key is appended at the end. -/

/-- Dict lookup. -/
def lookupA {α : Type} (k : List Char) : List (List Char × α) → Option α
  | [] => none
  | p :: ps => if p.1 = k then some p.2 else lookupA k ps

/-- Dict assignment `d[k] = v`. -/
def setA {α : Type} (k : List Char) (v : α) : List (List Char × α) → List (List Char × α)
  | [] => [(k, v)]
  | p :: ps => if p.1 = k then (k, v) :: ps else p :: setA k v ps

/-- `d.setdefault(k, v)`. -/
def setdefaultA {α : Type} (k : List Char) (v : α) (l : List (List Char × α)) :
    List (List Char × α) :=
  match lookupA k l with
  | some _ => l
  | none => l ++ [(k, v)]

/-- `defaultdict(list)`: `d[k].append(v)`. -/
def appendValA (k : List Char) (v : ℚ) :
    List (List Char × List ℚ) → List (List Char × List ℚ)
  | [] => [(k, [v])]
  | p :: ps => if p.1 = k then (p.1, p.2 ++ [v]) :: ps else p :: appendValA k v ps

/-- `Counter`: `c[k] += 1`. -/
def incrA (k : List Char) : List (List Char × Nat) → List (List Char × Nat)
  | [] => [(k, 1)]
  | p :: ps => if p.1 = k then (p.1, p.2 + 1) :: ps else p :: incrA k ps

/-- `Counter` read: missing keys count 0. -/
def countA (k : List Char) (l : List (List Char × Nat)) : Nat :=
  (lookupA k l).getD 0

/-- The duplicate test of the finalization code:
`c = Counter(processed); any(v > 1 for v in c.values())`. -/
def hasDupTokens (ts : List (List Char)) : Bool :=
  ts.any (fun t => 1 < ts.count t)

/-! ### The streaming parse state -/

/-- The mutable state of the streaming parser: the Python module-level
variables, plus `ghost_`-prefixed observers used only in specifications. -/
structure ParseState where
  current_fp : Option (List Char)
  in_block6 : Bool
  collecting_chan_labels : Bool
  pending_chan_labels : List (List Char)
  fs_all : List (List Char × Option ℚ)
  per_file_block6_channel_fs : List (List Char × List ℚ)
  per_file_labels : List (List Char × List (List Char))
  electrodes_all : List (List Char × Nat)
  ELECTRODES_NOT_UNIQUE_LIST : List (List Char)
  /-- Ghost: the key of every record-start event, in order. -/
  ghost_started_keys : List (List Char)
  /-- Ghost: the active key at every `hdr_sample_frequency` event. -/
  ghost_hdr_keys : List (List Char)
  /-- Ghost: every raw token collected into `pending_chan_labels` by the
  currently active record (not cleared at batch finalization). -/
  ghost_record_tokens : List (List Char)
  /-- Ghost: every finalized label batch `(key, normalized tokens)`. -/
  ghost_batches : List (List Char × List (List Char))
  deriving DecidableEq, Repr

def initState : ParseState where
  current_fp := none
  in_block6 := false
  collecting_chan_labels := false
  pending_chan_labels := []
  fs_all := []
  per_file_block6_channel_fs := []
  per_file_labels := []
  electrodes_all := []
  ELECTRODES_NOT_UNIQUE_LIST := []
  ghost_started_keys := []
  ghost_hdr_keys := []
  ghost_record_tokens := []
  ghost_batches := []

/-- The shared nonempty-batch finalization: normalize the pending tokens,
store them in `per_file_labels`, flag the key on a duplicate, clear the
batch.  (Used at record boundaries, at `chan_trans_type`, and at EOF.) -/
def process_pending (fp : List Char) (st : ParseState) : ParseState :=
  let processed := st.pending_chan_labels.map normalize_label_preserve
  let st1 := { st with per_file_labels := setA fp processed st.per_file_labels,
                       ghost_batches := st.ghost_batches ++ [(fp, processed)] }
  let st2 := if hasDupTokens processed then
               { st1 with ELECTRODES_NOT_UNIQUE_LIST :=
                            st1.ELECTRODES_NOT_UNIQUE_LIST ++ [fp] }
             else st1
  { st2 with pending_chan_labels := [] }

/-- The `in_block6` update a non-boundary line performs before field
extraction: an explicit `Block N:` sets it to `N = 6`, then a marker phrase
on the same line overrides it to `true`. -/
def gateAfter (prev : Bool) (line : List Char) : Bool :=
  let b1 := match blockStartMatch line with
            | some n => decide (n = 6)
            | none => prev
  if phraseBlock6 line then true else b1

/-- One iteration of the parser's per-line loop. -/
def step (st : ParseState) (line : List Char) : ParseState :=
  match fileStartMatch line with
  | some cap =>
    -- finalize pending chan_labels for the previous record
    let st1 :=
      match st.current_fp with
      | none => st
      | some fp =>
        if st.pending_chan_labels.isEmpty then
          { st with per_file_labels := setdefaultA fp [] st.per_file_labels }
        else process_pending fp st
    -- start the new record
    let key := pyStrip cap
    { st1 with
      current_fp := some key,
      fs_all := setdefaultA key none st1.fs_all,
      per_file_block6_channel_fs := setA key [] st1.per_file_block6_channel_fs,
      in_block6 := false,
      collecting_chan_labels := false,
      pending_chan_labels := [],
      ghost_started_keys := st1.ghost_started_keys ++ [key],
      ghost_record_tokens := [] }
  | none =>
    match st.current_fp with
    | none => st
    | some fp =>
      let st := { st with in_block6 := gateAfter st.in_block6 line }
      match hdrMatch line with
      | some v => { st with fs_all := setA fp (some v) st.fs_all,
                            ghost_hdr_keys := st.ghost_hdr_keys ++ [fp] }
      | none =>
        match channelLabelMatch line with
        | some (ch_fs, rawLab) =>
          let label_text := pyStrip rawLab
          if st.in_block6 && eegSearch label_text && !excludeSearch label_text then
            let st1 := { st with per_file_block6_channel_fs :=
                                   appendValA fp ch_fs st.per_file_block6_channel_fs }
            let norm := normalize_label_preserve label_text
            if !norm.isEmpty && hasUpperAZ norm then
              { st1 with electrodes_all := incrA norm st1.electrodes_all }
            else st1
          else st
        | none =>
          if channelPlainMatch line then st
          else
            match chanLabelsStart line with
            | some rest =>
              let found := bracketTokens rest
              { st with collecting_chan_labels := true,
                        pending_chan_labels := st.pending_chan_labels ++ found,
                        ghost_record_tokens := st.ghost_record_tokens ++ found }
            | none =>
              if st.collecting_chan_labels then
                if chanTransMatch line then
                  let st1 := { st with collecting_chan_labels := false }
                  if st1.pending_chan_labels.isEmpty then st1
                  else process_pending fp st1
                else if line.contains '[' then
                  let found := bracketTokens line
                  { st with pending_chan_labels := st.pending_chan_labels ++ found,
                            ghost_record_tokens := st.ghost_record_tokens ++ found }
                else st
              else st

/-- Run the per-line loop over the whole input. -/
def runLines (lines : List (List Char)) : ParseState :=
  lines.foldl step initState

/-- The end-of-input finalization of the last record's pending labels. -/
def finalizeEOF (st : ParseState) : ParseState :=
  match st.current_fp with
  | none => st
  | some fp =>
    if st.pending_chan_labels.isEmpty then st else process_pending fp st

/-- The whole parse: stream all lines, then finalize at EOF. -/
def parseSummary (lines : List (List Char)) : ParseState :=
  finalizeEOF (runLines lines)

/-- The post-pass computing `FS_NOT_SAME_LIST`: iterate
`per_file_block6_channel_fs` in insertion order, skip empty lists, flag
keys whose frequencies are not all equal within tolerance. -/
def fsNotSameList (st : ParseState) : List (List Char) :=
  st.per_file_block6_channel_fs.foldl
    (fun acc p => if p.2.isEmpty then acc
                  else if floats_all_equal p.2 then acc
                  else acc ++ [p.1]) []

/-- The record keys opened by the input, in order of their start lines
(with multiplicity). -/
def startedKeys (lines : List (List Char)) : List (List Char) :=
  lines.filterMap (fun l => (fileStartMatch l).map pyStrip)

/-! ### Per-field transition functions (used to state how `step` acts on an
active record's line that is not a record start) -/

/-- `fs_all` after an active non-boundary line. -/
def fsAllAfter (st : ParseState) (fp line : List Char) : List (List Char × Option ℚ) :=
  match hdrMatch line with
  | some v => setA fp (some v) st.fs_all
  | none => st.fs_all

/-- The ghost list of header-frequency events after an active
non-boundary line. -/
def ghostHdrAfter (st : ParseState) (fp line : List Char) : List (List Char) :=
  match hdrMatch line with
  | some _ => st.ghost_hdr_keys ++ [fp]
  | none => st.ghost_hdr_keys

/-- `per_file_block6_channel_fs` after an active non-boundary line. -/
def b6fsAfter (st : ParseState) (fp line : List Char) :
    List (List Char × List ℚ) :=
  match hdrMatch line with
  | some _ => st.per_file_block6_channel_fs
  | none =>
    match channelLabelMatch line with
    | some (v, lab) =>
      if gateAfter st.in_block6 line && eegSearch (pyStrip lab) &&
         !excludeSearch (pyStrip lab) then
        appendValA fp v st.per_file_block6_channel_fs
      else st.per_file_block6_channel_fs
    | none => st.per_file_block6_channel_fs

/-- `electrodes_all` after an active non-boundary line. -/
def electrodesAfter (st : ParseState) (line : List Char) :
    List (List Char × Nat) :=
  match hdrMatch line with
  | some _ => st.electrodes_all
  | none =>
    match channelLabelMatch line with
    | some (_, lab) =>
      if gateAfter st.in_block6 line && eegSearch (pyStrip lab) &&
         !excludeSearch (pyStrip lab) then
        if !(normalize_label_preserve (pyStrip lab)).isEmpty &&
           hasUpperAZ (normalize_label_preserve (pyStrip lab)) then
          incrA (normalize_label_preserve (pyStrip lab)) st.electrodes_all
        else st.electrodes_all
      else st.electrodes_all
    | none => st.electrodes_all

/-- The block-marker status of a line (the specification's notion of a
"block-marker event"): `some true` for a line carrying a marker phrase,
otherwise `some (n = 6)` for an explicit `Block n:` line, otherwise `none`. -/
def markerStatus (line : List Char) : Option Bool :=
  if phraseBlock6 line then some true
  else
    match blockStartMatch line with
    | some n => some (decide (n = 6))
    | none => none

/-- A record-boundary line used to compare end-of-input finalization with
boundary finalization. -/
def boundary_line : List Char := "999: XEOF".data

/-! ### Concrete inputs for the tolerance and duplicate-key scenarios -/

/-- One record whose two qualifying block-6 frequencies differ by `5e-7`. -/
def ex_tol_ok : List (List Char) :=
  ["1: A".data, "Block 6:".data,
   "channel[0]: 100.0 Hz (EEG FP1)".data,
   "channel[1]: 100.0000005 Hz (EEG FP2)".data]

/-- One record whose two qualifying block-6 frequencies differ by `0.01`. -/
def ex_tol_bad : List (List Char) :=
  ["1: A".data, "Block 6:".data,
   "channel[0]: 100.0 Hz (EEG FP1)".data,
   "channel[1]: 100.01 Hz (EEG FP2)".data]

/-- One record with two label-collection batches, each `[FP1]`: the combined
tokens hold a duplicate but no single batch does. -/
def ex_c2 : List (List Char) :=
  ["1: A".data, "chan_labels (1) = [FP1]".data, "chan_trans_type x".data,
   "chan_labels (1) = [FP1]".data]

/-- The key `A` starts a record twice: the first occurrence's block-6
frequencies are inconsistent, the second occurrence's are consistent. -/
def ex_c4 : List (List Char) :=
  ["1: A".data, "Block 6:".data,
   "channel[0]: 100.0 Hz (EEG F1)".data,
   "channel[1]: 200.0 Hz (EEG F2)".data,
   "2: A".data, "Block 6:".data,
   "channel[0]: 100.0 Hz (EEG F1)".data,
   "channel[1]: 100.0 Hz (EEG F2)".data]

/-- The state invariants maintained by the per-line loop. -/
structure GoodSt (st : ParseState) : Prop where
  /-- Keys of the per-record block-6 frequency dict are distinct. -/
  nodup_b6 : (st.per_file_block6_channel_fs.map Prod.fst).Nodup
  /-- `fs_all` holds exactly the keys that ever started a record. -/
  keys_started : ∀ k, (lookupA k st.fs_all).isSome ↔ k ∈ st.ghost_started_keys
  /-- A key with no header-frequency event still maps to `None`. -/
  no_hdr_none : ∀ k v, k ∉ st.ghost_hdr_keys → lookupA k st.fs_all = some v → v = none
  /-- The active key has started. -/
  current_started : ∀ fp, st.current_fp = some fp → fp ∈ st.ghost_started_keys
  /-- Tokens are only pending while a record is active. -/
  pending_active : st.current_fp = none → st.pending_chan_labels = []
  /-- The duplicate-label list is the per-batch filter of the finalized
  batches (lockstep). -/
  el_batches : st.ELECTRODES_NOT_UNIQUE_LIST =
    (st.ghost_batches.filter (fun b => hasDupTokens b.2)).map Prod.fst

/-! ### Bridge lemmas: kernel-reducible rational helpers vs Mathlib -/

theorem ratSub_eq (a b : ℚ) : ratSub a b = a - b := by
  rw [ratSub, Rat.mkRat_eq_div]
  have ha : (a.den : ℚ) ≠ 0 := Nat.cast_ne_zero.mpr a.den_nz
  have hb : (b.den : ℚ) ≠ 0 := Nat.cast_ne_zero.mpr b.den_nz
  rw [show a - b = a.num / a.den - b.num / b.den by
        rw [Rat.num_div_den, Rat.num_div_den],
      div_sub_div _ _ ha hb]
  push_cast
  ring_nf

theorem ratAbs_eq (q : ℚ) : ratAbs q = |q| := by
  rw [ratAbs, Rat.mkRat_eq_div]
  push_cast [Int.cast_natAbs]
  rw [show (q.den : ℚ) = |(q.den : ℚ)| from
        (abs_of_pos (by exact_mod_cast q.den_pos)).symm,
      ← abs_div, Rat.num_div_den]

theorem fsTol_eq : fsTol = 1 / 1000000 := by
  rw [fsTol, Rat.mkRat_eq_div]; norm_num

/-- `floats_all_equal` is false exactly when some element differs from the
first element by more than the tolerance. -/
theorem floats_all_equal_false_iff (l : List ℚ) :
    floats_all_equal l = false ↔ ∃ x ∈ l, fsTol < |x - l.headI| := by
  cases l with
  | nil => simp [floats_all_equal]
  | cons first rest =>
    rw [floats_all_equal]
    simp only [List.all_eq_false, decide_eq_true_eq, not_le, List.headI,
               ratAbs_eq, ratSub_eq]

/-! ### Association-list lemmas -/

theorem lookupA_cons {α : Type} (k : List Char) (p : List Char × α)
    (ps : List (List Char × α)) :
    lookupA k (p :: ps) = if p.1 = k then some p.2 else lookupA k ps := rfl

theorem setA_cons {α : Type} (k : List Char) (v : α) (p : List Char × α)
    (ps : List (List Char × α)) :
    setA k v (p :: ps) = if p.1 = k then (k, v) :: ps else p :: setA k v ps := rfl

theorem lookupA_setA_self {α : Type} (k : List Char) (v : α) (l : List (List Char × α)) :
    lookupA k (setA k v l) = some v := by
  induction l with
  | nil => rw [setA, lookupA_cons, if_pos rfl]
  | cons p ps ih =>
    rw [setA_cons]
    by_cases h : p.1 = k
    · rw [if_pos h, lookupA_cons, if_pos rfl]
    · rw [if_neg h, lookupA_cons, if_neg h, ih]

theorem lookupA_setA_ne {α : Type} {k k2 : List Char} (v : α) (l : List (List Char × α))
    (h : k2 ≠ k) : lookupA k2 (setA k v l) = lookupA k2 l := by
  induction l with
  | nil => rw [setA, lookupA_cons, if_neg (Ne.symm h), lookupA]
  | cons p ps ih =>
    rw [setA_cons]
    by_cases hp : p.1 = k
    · rw [if_pos hp, lookupA_cons, if_neg (Ne.symm h), lookupA_cons, if_neg]
      rw [hp]
      exact Ne.symm h
    · rw [if_neg hp, lookupA_cons, lookupA_cons, ih]

theorem mem_keys_setA {α : Type} {k2 k : List Char} {v : α} {l : List (List Char × α)} :
    k2 ∈ (setA k v l).map Prod.fst ↔ k2 = k ∨ k2 ∈ l.map Prod.fst := by
  induction l with
  | nil =>
    rw [setA]
    simp only [List.map_cons, List.map_nil, List.mem_singleton, List.not_mem_nil,
               or_false]
  | cons p ps ih =>
    rw [setA_cons]
    by_cases hp : p.1 = k
    · rw [if_pos hp, List.map_cons, List.map_cons, List.mem_cons, List.mem_cons]
      constructor
      · rintro (h | h)
        · exact Or.inl h
        · exact Or.inr (Or.inr h)
      · rintro (h | h | h)
        · exact Or.inl h
        · rw [hp] at h
          exact Or.inl h
        · exact Or.inr h
    · rw [if_neg hp, List.map_cons, List.map_cons, List.mem_cons, List.mem_cons, ih]
      tauto

theorem nodup_keys_setA {α : Type} {k : List Char} {v : α} {l : List (List Char × α)}
    (h : (l.map Prod.fst).Nodup) : ((setA k v l).map Prod.fst).Nodup := by
  induction l with
  | nil =>
    rw [setA]
    exact List.nodup_singleton k
  | cons p ps ih =>
    rw [List.map_cons, List.nodup_cons] at h
    rw [setA_cons]
    by_cases hp : p.1 = k
    · rw [if_pos hp, List.map_cons, List.nodup_cons]
      refine ⟨?_, h.2⟩
      rw [← hp]
      exact h.1
    · rw [if_neg hp, List.map_cons, List.nodup_cons]
      refine ⟨fun hmem => ?_, ih h.2⟩
      rcases mem_keys_setA.mp hmem with h1 | h1
      · exact hp h1
      · exact h.1 h1

theorem lookupA_isSome_iff_mem_keys {α : Type} (k : List Char) (l : List (List Char × α)) :
    (lookupA k l).isSome ↔ k ∈ l.map Prod.fst := by
  induction l with
  | nil =>
    simp only [lookupA, Option.isSome_none, Bool.false_eq_true, List.map_nil,
               List.not_mem_nil]
  | cons p ps ih =>
    rw [lookupA_cons, List.map_cons, List.mem_cons]
    by_cases hp : p.1 = k
    · rw [if_pos hp]
      constructor
      · intro _
        exact Or.inl hp.symm
      · intro _
        rfl
    · rw [if_neg hp, ih]
      constructor
      · intro h1
        exact Or.inr h1
      · rintro (h1 | h1)
        · exact absurd h1.symm hp
        · exact h1

theorem lookupA_append_single {α : Type} (k k2 : List Char) (v : α)
    (l : List (List Char × α)) :
    lookupA k (l ++ [(k2, v)]) =
      match lookupA k l with
      | some w => some w
      | none => if k2 = k then some v else none := by
  induction l with
  | nil => rw [List.nil_append, lookupA_cons, lookupA]
  | cons p ps ih =>
    rw [List.cons_append, lookupA_cons, lookupA_cons]
    by_cases hp : p.1 = k
    · rw [if_pos hp, if_pos hp]
    · rw [if_neg hp, if_neg hp, ih]

theorem lookupA_setdefaultA_of_some {α : Type} {k k2 : List Char} {v w : α}
    {l : List (List Char × α)} (h : lookupA k2 l = some w) :
    lookupA k2 (setdefaultA k v l) = some w := by
  rw [setdefaultA]
  cases hk : lookupA k l with
  | some _ => exact h
  | none => rw [lookupA_append_single, h]

theorem lookupA_setdefaultA_self_none {α : Type} {k : List Char} (v : α)
    {l : List (List Char × α)} (h : lookupA k l = none) :
    lookupA k (setdefaultA k v l) = some v := by
  rw [setdefaultA, h, lookupA_append_single, h, if_pos rfl]

theorem lookupA_setdefaultA_ne {α : Type} {k k2 : List Char} (v : α)
    (l : List (List Char × α)) (h : k2 ≠ k) :
    lookupA k2 (setdefaultA k v l) = lookupA k2 l := by
  rw [setdefaultA]
  cases hk : lookupA k l with
  | some _ => rfl
  | none =>
    rw [lookupA_append_single]
    cases h2 : lookupA k2 l with
    | some _ => rfl
    | none => rw [if_neg (Ne.symm h)]

theorem isSome_lookupA_setdefaultA {α : Type} (k k2 : List Char) (v : α)
    (l : List (List Char × α)) :
    (lookupA k2 (setdefaultA k v l)).isSome ↔ k2 = k ∨ (lookupA k2 l).isSome := by
  by_cases h : k2 = k
  · subst h
    cases hk : lookupA k2 l with
    | some w => simp [lookupA_setdefaultA_of_some hk]
    | none => simp [lookupA_setdefaultA_self_none v hk]
  · rw [lookupA_setdefaultA_ne v l h]
    simp [h]

theorem isSome_lookupA_setA {α : Type} (k k2 : List Char) (v : α)
    (l : List (List Char × α)) :
    (lookupA k2 (setA k v l)).isSome ↔ k2 = k ∨ (lookupA k2 l).isSome := by
  by_cases h : k2 = k
  · subst h
    simp [lookupA_setA_self]
  · rw [lookupA_setA_ne v l h]
    simp [h]

theorem appendValA_cons (k : List Char) (v : ℚ) (p : List Char × List ℚ)
    (ps : List (List Char × List ℚ)) :
    appendValA k v (p :: ps) =
      if p.1 = k then (p.1, p.2 ++ [v]) :: ps else p :: appendValA k v ps := rfl

theorem mem_keys_appendValA {k2 k : List Char} {v : ℚ} {l : List (List Char × List ℚ)} :
    k2 ∈ (appendValA k v l).map Prod.fst ↔ k2 = k ∨ k2 ∈ l.map Prod.fst := by
  induction l with
  | nil =>
    rw [appendValA]
    simp only [List.map_cons, List.map_nil, List.mem_singleton, List.not_mem_nil,
               or_false]
  | cons p ps ih =>
    rw [appendValA_cons]
    by_cases hp : p.1 = k
    · rw [if_pos hp, List.map_cons, List.map_cons, List.mem_cons]
      constructor
      · rintro (h | h)
        · exact Or.inl (h.trans hp)
        · exact Or.inr (Or.inr h)
      · rintro (h | h | h)
        · exact Or.inl (h.trans hp.symm)
        · exact Or.inl h
        · exact Or.inr h
    · rw [if_neg hp, List.map_cons, List.map_cons, List.mem_cons, List.mem_cons, ih]
      tauto

theorem nodup_keys_appendValA {k : List Char} {v : ℚ} {l : List (List Char × List ℚ)}
    (h : (l.map Prod.fst).Nodup) : ((appendValA k v l).map Prod.fst).Nodup := by
  induction l with
  | nil =>
    rw [appendValA]
    exact List.nodup_singleton k
  | cons p ps ih =>
    rw [List.map_cons, List.nodup_cons] at h
    rw [appendValA_cons]
    by_cases hp : p.1 = k
    · rw [if_pos hp, List.map_cons, List.nodup_cons]
      exact ⟨h.1, h.2⟩
    · rw [if_neg hp, List.map_cons, List.nodup_cons]
      refine ⟨fun hmem => ?_, ih h.2⟩
      rcases mem_keys_appendValA.mp hmem with h1 | h1
      · exact hp h1
      · exact h.1 h1

theorem countA_incrA_self (k : List Char) (l : List (List Char × Nat)) :
    countA k (incrA k l) = countA k l + 1 := by
  induction l with
  | nil => rw [incrA, countA, countA, lookupA_cons, if_pos rfl, lookupA]; rfl
  | cons p ps ih =>
    by_cases hp : p.1 = k
    · rw [show incrA k (p :: ps) = (p.1, p.2 + 1) :: ps from by rw [incrA, if_pos hp],
          countA, countA, lookupA_cons, lookupA_cons, if_pos hp, if_pos hp]
      rfl
    · rw [show incrA k (p :: ps) = p :: incrA k ps from by rw [incrA, if_neg hp],
          countA, countA, lookupA_cons, lookupA_cons, if_neg hp, if_neg hp]
      exact ih

theorem mem_of_lookupA_eq_some {α : Type} {k : List Char} {v : α}
    {l : List (List Char × α)} (h : lookupA k l = some v) : (k, v) ∈ l := by
  induction l with
  | nil => simp [lookupA] at h
  | cons p ps ih =>
    rw [lookupA_cons] at h
    by_cases hp : p.1 = k
    · rw [if_pos hp] at h
      have hv : p.2 = v := Option.some_inj.mp h
      rw [← hp, ← hv]
      exact List.mem_cons_self p ps
    · rw [if_neg hp] at h
      exact List.mem_cons_of_mem _ (ih h)

theorem lookupA_eq_some_of_mem_nodup {α : Type} {k : List Char} {v : α}
    {l : List (List Char × α)} (hnd : (l.map Prod.fst).Nodup) (h : (k, v) ∈ l) :
    lookupA k l = some v := by
  induction l with
  | nil => simp at h
  | cons p ps ih =>
    rw [List.map_cons, List.nodup_cons] at hnd
    rcases List.mem_cons.mp h with h1 | h1
    · rw [← h1, lookupA_cons, if_pos rfl]
    · rw [lookupA_cons]
      have hp : p.1 ≠ k := by
        intro hk
        apply hnd.1
        rw [hk]
        exact List.mem_map.mpr ⟨(k, v), h1, rfl⟩
      rw [if_neg hp]
      exact ih hnd.2 h1

/-! ### Generic list helpers -/

theorem mem_dropWhile_of_neg {p : Char → Bool} {c : Char} {l : List Char}
    (hc : p c = false) (h : c ∈ l) : c ∈ l.dropWhile p := by
  induction l with
  | nil => simp at h
  | cons a as ih =>
    rw [List.dropWhile_cons]
    rcases List.mem_cons.mp h with h1 | h1
    · subst h1
      rw [hc]
      simp
    · by_cases ha : p a = true
      · rw [ha]
        simp only [if_true]
        exact ih h1
      · rw [Bool.not_eq_true] at ha
        rw [ha]
        simp only [Bool.false_eq_true, if_false]
        exact List.mem_cons_of_mem _ h1

theorem mem_pyStrip_of_not_space {c : Char} {l : List Char}
    (hc : pyIsSpace c = false) (h : c ∈ l) : c ∈ pyStrip l := by
  rw [pyStrip]
  rw [List.mem_reverse]
  apply mem_dropWhile_of_neg hc
  rw [List.mem_reverse]
  exact mem_dropWhile_of_neg hc h

theorem dropWhile_append_of_all {p : Char → Bool} {ws : List Char} (t : List Char)
    (h : ∀ c ∈ ws, p c = true) : (ws ++ t).dropWhile p = t.dropWhile p := by
  induction ws with
  | nil => rfl
  | cons a as ih =>
    rw [List.cons_append, List.dropWhile_cons, h a (List.mem_cons_self a as)]
    simp only [if_true]
    exact ih (fun c hc => h c (List.mem_cons_of_mem a hc))

theorem takeWhile_append_stop {p : Char → Bool} {ds : List Char} {x : Char}
    (rest : List Char) (h : ∀ c ∈ ds, p c = true) (hx : p x = false) :
    (ds ++ x :: rest).takeWhile p = ds := by
  induction ds with
  | nil =>
    rw [List.nil_append, List.takeWhile_cons, hx]
    simp
  | cons a as ih =>
    rw [List.cons_append, List.takeWhile_cons, h a (List.mem_cons_self a as)]
    simp only [if_true]
    rw [ih (fun c hc => h c (List.mem_cons_of_mem a hc))]

theorem dropWhile_append_stop {p : Char → Bool} {ds : List Char} {x : Char}
    (rest : List Char) (h : ∀ c ∈ ds, p c = true) (hx : p x = false) :
    (ds ++ x :: rest).dropWhile p = x :: rest := by
  induction ds with
  | nil =>
    rw [List.nil_append, List.dropWhile_cons, hx]
    simp
  | cons a as ih =>
    rw [List.cons_append, List.dropWhile_cons, h a (List.mem_cons_self a as)]
    simp only [if_true]
    exact ih (fun c hc => h c (List.mem_cons_of_mem a hc))

theorem process_pending_eq (fp : List Char) (st : ParseState) :
    process_pending fp st =
      { st with
        per_file_labels := setA fp (st.pending_chan_labels.map normalize_label_preserve)
                             st.per_file_labels,
        ghost_batches := st.ghost_batches ++
                           [(fp, st.pending_chan_labels.map normalize_label_preserve)],
        ELECTRODES_NOT_UNIQUE_LIST := st.ELECTRODES_NOT_UNIQUE_LIST ++
          (if hasDupTokens (st.pending_chan_labels.map normalize_label_preserve)
           then [fp] else []),
        pending_chan_labels := [] } := by
  rw [process_pending]
  by_cases hdup : hasDupTokens (st.pending_chan_labels.map normalize_label_preserve) = true
  · simp only [hdup, if_true]
  · simp only [Bool.not_eq_true] at hdup
    simp only [hdup, Bool.false_eq_true, if_false, List.append_nil]

theorem step_none_none (st : ParseState) (line : List Char)
    (h1 : fileStartMatch line = none) (h2 : st.current_fp = none) :
    step st line = st := by
  simp only [step, h1, h2]

theorem step_start_fields (st : ParseState) (line cap : List Char)
    (h : fileStartMatch line = some cap) :
    (step st line).current_fp = some (pyStrip cap) ∧
    (step st line).in_block6 = false ∧
    (step st line).collecting_chan_labels = false ∧
    (step st line).pending_chan_labels = [] ∧
    (step st line).ghost_record_tokens = [] ∧
    (step st line).fs_all = setdefaultA (pyStrip cap) none st.fs_all ∧
    (step st line).per_file_block6_channel_fs =
      setA (pyStrip cap) [] st.per_file_block6_channel_fs ∧
    (step st line).ghost_started_keys = st.ghost_started_keys ++ [pyStrip cap] ∧
    (step st line).ghost_hdr_keys = st.ghost_hdr_keys ∧
    (step st line).electrodes_all = st.electrodes_all ∧
    (step st line).ELECTRODES_NOT_UNIQUE_LIST =
      (match st.current_fp with
       | none => st.ELECTRODES_NOT_UNIQUE_LIST
       | some fp => if st.pending_chan_labels.isEmpty
                    then st.ELECTRODES_NOT_UNIQUE_LIST
                    else (process_pending fp st).ELECTRODES_NOT_UNIQUE_LIST) ∧
    (step st line).ghost_batches =
      (match st.current_fp with
       | none => st.ghost_batches
       | some fp => if st.pending_chan_labels.isEmpty then st.ghost_batches
                    else (process_pending fp st).ghost_batches) := by
  cases h2 : st.current_fp with
  | none =>
    simp only [step, h, h2]
    and_intros <;> trivial
  | some fp =>
    by_cases hemp : st.pending_chan_labels.isEmpty = true
    · simp only [step, h, h2, hemp, if_true]
      and_intros <;> trivial
    · simp only [Bool.not_eq_true] at hemp
      simp only [step, h, h2, hemp, Bool.false_eq_true, if_false]
      rw [process_pending_eq]
      and_intros <;> trivial

theorem step_active_fields (st : ParseState) (fp line : List Char)
    (h1 : fileStartMatch line = none) (h2 : st.current_fp = some fp) :
    (step st line).current_fp = some fp ∧
    (step st line).in_block6 = gateAfter st.in_block6 line ∧
    (step st line).ghost_started_keys = st.ghost_started_keys ∧
    (step st line).fs_all = fsAllAfter st fp line ∧
    (step st line).ghost_hdr_keys = ghostHdrAfter st fp line ∧
    (step st line).per_file_block6_channel_fs = b6fsAfter st fp line ∧
    (step st line).electrodes_all = electrodesAfter st line ∧
    ((step st line).ELECTRODES_NOT_UNIQUE_LIST = st.ELECTRODES_NOT_UNIQUE_LIST ∧
       (step st line).ghost_batches = st.ghost_batches ∨
     (step st line).ELECTRODES_NOT_UNIQUE_LIST =
       st.ELECTRODES_NOT_UNIQUE_LIST ++
         (if hasDupTokens (st.pending_chan_labels.map normalize_label_preserve)
          then [fp] else []) ∧
     (step st line).ghost_batches = st.ghost_batches ++
       [(fp, st.pending_chan_labels.map normalize_label_preserve)]) := by
  cases h3 : hdrMatch line with
  | some v =>
    simp only [step, h1, h2, h3, fsAllAfter, ghostHdrAfter, b6fsAfter, electrodesAfter]
    refine ⟨?_, ?_, ?_, ?_, ?_, ?_, ?_, Or.inl ⟨?_, ?_⟩⟩ <;> trivial
  | none =>
    cases h4 : channelLabelMatch line with
    | some p =>
      obtain ⟨v, lab⟩ := p
      by_cases h5 : (gateAfter st.in_block6 line && eegSearch (pyStrip lab) &&
                     !excludeSearch (pyStrip lab)) = true
      · by_cases h6 : (!(normalize_label_preserve (pyStrip lab)).isEmpty &&
                       hasUpperAZ (normalize_label_preserve (pyStrip lab))) = true
        · simp only [step, h1, h2, h3, h4, h5, h6, if_true, fsAllAfter,
                     ghostHdrAfter, b6fsAfter, electrodesAfter]
          refine ⟨?_, ?_, ?_, ?_, ?_, ?_, ?_, Or.inl ⟨?_, ?_⟩⟩ <;> trivial
        · simp only [Bool.not_eq_true] at h6
          simp only [step, h1, h2, h3, h4, h5, h6, if_true, Bool.false_eq_true,
                     if_false, fsAllAfter, ghostHdrAfter, b6fsAfter, electrodesAfter]
          refine ⟨?_, ?_, ?_, ?_, ?_, ?_, ?_, Or.inl ⟨?_, ?_⟩⟩ <;> trivial
      · simp only [Bool.not_eq_true] at h5
        simp only [step, h1, h2, h3, h4, h5, Bool.false_eq_true, if_false,
                   fsAllAfter, ghostHdrAfter, b6fsAfter, electrodesAfter]
        refine ⟨?_, ?_, ?_, ?_, ?_, ?_, ?_, Or.inl ⟨?_, ?_⟩⟩ <;> trivial
    | none =>
      by_cases h5 : channelPlainMatch line = true
      · simp only [step, h1, h2, h3, h4, h5, if_true, fsAllAfter,
                   ghostHdrAfter, b6fsAfter, electrodesAfter]
        refine ⟨?_, ?_, ?_, ?_, ?_, ?_, ?_, Or.inl ⟨?_, ?_⟩⟩ <;> trivial
      · simp only [Bool.not_eq_true] at h5
        cases h6 : chanLabelsStart line with
        | some rest =>
          simp only [step, h1, h2, h3, h4, h5, h6, Bool.false_eq_true, if_false,
                     fsAllAfter, ghostHdrAfter, b6fsAfter, electrodesAfter]
          refine ⟨?_, ?_, ?_, ?_, ?_, ?_, ?_, Or.inl ⟨?_, ?_⟩⟩ <;> trivial
        | none =>
          by_cases h7 : st.collecting_chan_labels = true
          · by_cases h8 : chanTransMatch line = true
            · by_cases h9 : st.pending_chan_labels.isEmpty = true
              · simp only [step, h1, h2, h3, h4, h5, h6, h7, h8, h9,
                           Bool.false_eq_true, if_false, if_true, fsAllAfter,
                           ghostHdrAfter, b6fsAfter, electrodesAfter]
                refine ⟨?_, ?_, ?_, ?_, ?_, ?_, ?_, Or.inl ⟨?_, ?_⟩⟩ <;> trivial
              · simp only [Bool.not_eq_true] at h9
                simp only [step, h1, h2, h3, h4, h5, h6, h7, h8, h9,
                           Bool.false_eq_true, if_false, if_true, fsAllAfter,
                           ghostHdrAfter, b6fsAfter, electrodesAfter]
                rw [process_pending_eq]
                refine ⟨?_, ?_, ?_, ?_, ?_, ?_, ?_, Or.inr ⟨?_, ?_⟩⟩ <;> trivial
            · simp only [Bool.not_eq_true] at h8
              by_cases h10 : line.contains '[' = true
              · simp only [step, h1, h2, h3, h4, h5, h6, h7, h8, h10,
                           Bool.false_eq_true, if_false, if_true, fsAllAfter,
                           ghostHdrAfter, b6fsAfter, electrodesAfter]
                refine ⟨?_, ?_, ?_, ?_, ?_, ?_, ?_, Or.inl ⟨?_, ?_⟩⟩ <;> trivial
              · simp only [Bool.not_eq_true] at h10
                simp only [step, h1, h2, h3, h4, h5, h6, h7, h8, h10,
                           Bool.false_eq_true, if_false, if_true, fsAllAfter,
                           ghostHdrAfter, b6fsAfter, electrodesAfter]
                refine ⟨?_, ?_, ?_, ?_, ?_, ?_, ?_, Or.inl ⟨?_, ?_⟩⟩ <;> trivial
          · simp only [Bool.not_eq_true] at h7
            simp only [step, h1, h2, h3, h4, h5, h6, h7, Bool.false_eq_true,
                       if_false, fsAllAfter, ghostHdrAfter, b6fsAfter, electrodesAfter]
            refine ⟨?_, ?_, ?_, ?_, ?_, ?_, ?_, Or.inl ⟨?_, ?_⟩⟩ <;> trivial

theorem finalizeEOF_fields (st : ParseState) :
    (finalizeEOF st).current_fp = st.current_fp ∧
    (finalizeEOF st).fs_all = st.fs_all ∧
    (finalizeEOF st).per_file_block6_channel_fs = st.per_file_block6_channel_fs ∧
    (finalizeEOF st).electrodes_all = st.electrodes_all ∧
    (finalizeEOF st).ghost_started_keys = st.ghost_started_keys ∧
    (finalizeEOF st).ghost_hdr_keys = st.ghost_hdr_keys ∧
    (finalizeEOF st).ghost_record_tokens = st.ghost_record_tokens ∧
    (finalizeEOF st).ELECTRODES_NOT_UNIQUE_LIST =
      (match st.current_fp with
       | none => st.ELECTRODES_NOT_UNIQUE_LIST
       | some fp => if st.pending_chan_labels.isEmpty
                    then st.ELECTRODES_NOT_UNIQUE_LIST
                    else (process_pending fp st).ELECTRODES_NOT_UNIQUE_LIST) ∧
    (finalizeEOF st).ghost_batches =
      (match st.current_fp with
       | none => st.ghost_batches
       | some fp => if st.pending_chan_labels.isEmpty then st.ghost_batches
                    else (process_pending fp st).ghost_batches) := by
  cases h1 : st.current_fp with
  | none =>
    simp only [finalizeEOF, h1]
    and_intros <;> trivial
  | some fp =>
    by_cases h2 : st.pending_chan_labels.isEmpty = true
    · simp only [finalizeEOF, h1, h2, if_true]
      and_intros <;> trivial
    · simp only [Bool.not_eq_true] at h2
      simp only [finalizeEOF, h1, h2, Bool.false_eq_true, if_false]
      rw [process_pending_eq]
      and_intros <;> trivial

/-- The generic foldl-invariant principle for the per-line loop. -/
theorem foldl_step_inv (P : ParseState → Prop)
    (hstep : ∀ st line, P st → P (step st line)) :
    ∀ (lines : List (List Char)) (st : ParseState), P st → P (lines.foldl step st) := by
  intro lines
  induction lines with
  | nil => intro st h; exact h
  | cons l ls ih =>
    intro st h
    exact ih (step st l) (hstep st l h)

/-- `GoodSt` holds initially. -/
theorem goodSt_init : GoodSt initState := by
  constructor
  · simp [initState]
  · intro k
    simp [initState, lookupA]
  · intro k v _ h
    simp [initState, lookupA] at h
  · intro fp h
    simp [initState] at h
  · intro _
    rfl
  · rfl

/-- The batch finalization of `process_pending` keeps `ELECTRODES_NOT_UNIQUE_LIST`
in lockstep with the filtered `ghost_batches`. -/
theorem el_batches_process_pending (fp : List Char) (st : ParseState)
    (h : st.ELECTRODES_NOT_UNIQUE_LIST =
          (st.ghost_batches.filter (fun b => hasDupTokens b.2)).map Prod.fst) :
    (process_pending fp st).ELECTRODES_NOT_UNIQUE_LIST =
      ((process_pending fp st).ghost_batches.filter
         (fun b => hasDupTokens b.2)).map Prod.fst := by
  rw [process_pending_eq]
  by_cases hdup : hasDupTokens (st.pending_chan_labels.map normalize_label_preserve) = true
  · simp only [hdup, if_true, List.filter_append, List.map_append, h]
    simp [List.filter_cons, hdup]
  · simp only [Bool.not_eq_true] at hdup
    simp only [hdup, Bool.false_eq_true, if_false, List.append_nil,
               List.filter_append, List.map_append, h]
    simp [List.filter_cons, hdup]

theorem goodSt_step (st : ParseState) (line : List Char) (h : GoodSt st) :
    GoodSt (step st line) := by
  cases hfs : fileStartMatch line with
  | some cap =>
    obtain ⟨hcur, hin6, hcol, hpend, htok, hfsall, hb6, hstart, hhdr, hel, hEL, hbat⟩ :=
      step_start_fields st line cap hfs
    constructor
    · rw [hb6]
      exact nodup_keys_setA h.nodup_b6
    · intro k
      rw [hfsall, hstart, isSome_lookupA_setdefaultA, h.keys_started k,
          List.mem_append, List.mem_singleton]
      tauto
    · intro k v hk hlk
      rw [hhdr] at hk
      rw [hfsall] at hlk
      by_cases hkk : k = pyStrip cap
      · rw [hkk] at hk hlk
        cases hkey : lookupA (pyStrip cap) st.fs_all with
        | some w =>
          rw [lookupA_setdefaultA_of_some hkey] at hlk
          exact h.no_hdr_none (pyStrip cap) v hk
            (hkey.trans (congrArg some (Option.some_inj.mp hlk)))
        | none =>
          rw [lookupA_setdefaultA_self_none none hkey] at hlk
          exact (Option.some_inj.mp hlk).symm
      · rw [lookupA_setdefaultA_ne none st.fs_all hkk] at hlk
        exact h.no_hdr_none k v hk hlk
    · intro fp hfp
      rw [hcur] at hfp
      rw [hstart, List.mem_append, List.mem_singleton]
      exact Or.inr (Option.some_inj.mp hfp).symm
    · intro _
      exact hpend
    · rw [hEL, hbat]
      cases hc : st.current_fp with
      | none => exact h.el_batches
      | some fp =>
        by_cases hemp : st.pending_chan_labels.isEmpty = true
        · simp only [hemp, if_true]
          exact h.el_batches
        · simp only [Bool.not_eq_true] at hemp
          simp only [hemp, Bool.false_eq_true, if_false]
          exact el_batches_process_pending fp st h.el_batches
  | none =>
    cases hcur : st.current_fp with
    | none =>
      rw [step_none_none st line hfs hcur]
      exact h
    | some fp =>
      obtain ⟨c1, c2, c3, c4, c5, c6, c7, c8⟩ := step_active_fields st fp line hfs hcur
      constructor
      · rw [c6, b6fsAfter]
        cases h3 : hdrMatch line with
        | some v => exact h.nodup_b6
        | none =>
          cases h4 : channelLabelMatch line with
          | some p =>
            by_cases h5 : (gateAfter st.in_block6 line && eegSearch (pyStrip p.2) &&
                           !excludeSearch (pyStrip p.2)) = true
            · simp only [h5, if_true]
              exact nodup_keys_appendValA h.nodup_b6
            · simp only [Bool.not_eq_true] at h5
              simp only [h5, Bool.false_eq_true, if_false]
              exact h.nodup_b6
          | none => exact h.nodup_b6
      · intro k
        rw [c4, c3, fsAllAfter]
        cases h3 : hdrMatch line with
        | some v =>
          rw [isSome_lookupA_setA, h.keys_started k]
          constructor
          · rintro (hk | hk)
            · rw [hk]
              exact h.current_started fp hcur
            · exact hk
          · intro hk
            exact Or.inr hk
        | none => exact h.keys_started k
      · intro k v hk hlk
        rw [c5, ghostHdrAfter] at hk
        rw [c4, fsAllAfter] at hlk
        cases h3 : hdrMatch line with
        | some w =>
          rw [h3] at hk hlk
          rw [List.mem_append, List.mem_singleton] at hk
          push_neg at hk
          rw [lookupA_setA_ne (some w) st.fs_all hk.2] at hlk
          exact h.no_hdr_none k v hk.1 hlk
        | none =>
          rw [h3] at hk hlk
          exact h.no_hdr_none k v hk hlk
      · intro fp2 hfp2
        rw [c1] at hfp2
        rw [c3, ← Option.some_inj.mp hfp2]
        exact h.current_started fp hcur
      · intro hnone
        rw [c1] at hnone
        cases hnone
      · rcases c8 with ⟨hEL, hbat⟩ | ⟨hEL, hbat⟩
        · rw [hEL, hbat]
          exact h.el_batches
        · rw [hEL, hbat]
          by_cases hdup : hasDupTokens (st.pending_chan_labels.map normalize_label_preserve) = true
          · simp only [hdup, if_true, List.filter_append, List.map_append, h.el_batches]
            simp [List.filter_cons, hdup]
          · simp only [Bool.not_eq_true] at hdup
            simp only [hdup, Bool.false_eq_true, if_false, List.append_nil,
                       List.filter_append, List.map_append, h.el_batches]
            simp [List.filter_cons, hdup]

/-- `GoodSt` holds for the end state of any run. -/
theorem goodSt_run (lines : List (List Char)) : GoodSt (runLines lines) :=
  foldl_step_inv GoodSt goodSt_step lines initState goodSt_init

/-- `GoodSt` also holds after the end-of-input finalization. -/
theorem goodSt_final (lines : List (List Char)) : GoodSt (parseSummary lines) := by
  have h := goodSt_run lines
  obtain ⟨f1, f2, f3, f4, f5, f6, f7, f8, f9⟩ := finalizeEOF_fields (runLines lines)
  rw [parseSummary]
  constructor
  · rw [f3]
    exact h.nodup_b6
  · intro k
    rw [f2, f5]
    exact h.keys_started k
  · intro k v hk hlk
    rw [f6] at hk
    rw [f2] at hlk
    exact h.no_hdr_none k v hk hlk
  · intro fp hfp
    rw [f1] at hfp
    rw [f5]
    exact h.current_started fp hfp
  · intro hnone
    rw [f1] at hnone
    cases hst : (runLines lines).current_fp with
    | none =>
      rw [show finalizeEOF (runLines lines) = runLines lines from by
            rw [finalizeEOF, hst]]
      exact h.pending_active hnone
    | some fp =>
      rw [hst] at hnone
      cases hnone
  · rw [f8, f9]
    cases hc : (runLines lines).current_fp with
    | none => exact h.el_batches
    | some fp =>
      by_cases hemp : (runLines lines).pending_chan_labels.isEmpty = true
      · simp only [hemp, if_true]
        exact h.el_batches
      · simp only [Bool.not_eq_true] at hemp
        simp only [hemp, Bool.false_eq_true, if_false]
        exact el_batches_process_pending fp (runLines lines) h.el_batches

/-- A non-boundary line never changes the active key. -/
theorem step_current_keep (st : ParseState) (line : List Char)
    (h1 : fileStartMatch line = none) :
    (step st line).current_fp = st.current_fp := by
  cases hcur : st.current_fp with
  | none =>
    rw [step_none_none st line h1 hcur]
    exact hcur
  | some fp => exact (step_active_fields st fp line h1 hcur).1

/-- `startedKeys` unfolds on a cons cell. -/
theorem startedKeys_cons (l : List Char) (ls : List (List Char)) :
    startedKeys (l :: ls) =
      (match fileStartMatch l with
       | some cap => [pyStrip cap]
       | none => []) ++ startedKeys ls := by
  rw [startedKeys, List.filterMap_cons, startedKeys]
  cases fileStartMatch l with
  | some cap => rfl
  | none => rfl

/-- The ghost list of started keys after a run extends the initial one by
the record-start captures of the processed lines. -/
theorem ghost_started_run (lines : List (List Char)) :
    ∀ st : ParseState,
      (lines.foldl step st).ghost_started_keys =
        st.ghost_started_keys ++ startedKeys lines := by
  induction lines with
  | nil =>
    intro st
    rw [List.foldl_nil, startedKeys, List.filterMap_nil, List.append_nil]
  | cons l ls ih =>
    intro st
    rw [List.foldl_cons, ih (step st l), startedKeys_cons]
    cases hfs : fileStartMatch l with
    | some cap =>
      rw [(step_start_fields st l cap hfs).2.2.2.2.2.2.2.1, List.append_assoc]
    | none =>
      have hsk : (step st l).ghost_started_keys = st.ghost_started_keys := by
        cases hcur : st.current_fp with
        | none =>
          rw [step_none_none st l hfs hcur]
        | some fp => exact (step_active_fields st fp l hfs hcur).2.2.1
      rw [hsk, List.nil_append]

/-- Membership in the `FS_NOT_SAME` fold. -/
theorem mem_fsNotSame_foldl (ps : List (List Char × List ℚ)) :
    ∀ (acc : List (List Char)) (fp : List Char),
      (fp ∈ ps.foldl
          (fun acc p => if p.2.isEmpty then acc
                        else if floats_all_equal p.2 then acc
                        else acc ++ [p.1]) acc) ↔
        fp ∈ acc ∨ ∃ l, (fp, l) ∈ ps ∧ l.isEmpty = false ∧
                         floats_all_equal l = false := by
  induction ps with
  | nil =>
    intro acc fp
    simp
  | cons p ps ih =>
    intro acc fp
    rw [List.foldl_cons]
    by_cases h1 : p.2.isEmpty = true
    · rw [if_pos h1, ih]
      constructor
      · rintro (h | ⟨l, hl, he, hf⟩)
        · exact Or.inl h
        · exact Or.inr ⟨l, List.mem_cons_of_mem p hl, he, hf⟩
      · rintro (h | ⟨l, hl, he, hf⟩)
        · exact Or.inl h
        · rcases List.mem_cons.mp hl with hl1 | hl1
          · exfalso
            have : p.2 = l := congrArg Prod.snd hl1.symm
            rw [← this] at he
            rw [h1] at he
            cases he
          · exact Or.inr ⟨l, hl1, he, hf⟩
    · rw [if_neg h1]
      rw [Bool.not_eq_true] at h1
      by_cases h2 : floats_all_equal p.2 = true
      · rw [if_pos h2, ih]
        constructor
        · rintro (h | ⟨l, hl, he, hf⟩)
          · exact Or.inl h
          · exact Or.inr ⟨l, List.mem_cons_of_mem p hl, he, hf⟩
        · rintro (h | ⟨l, hl, he, hf⟩)
          · exact Or.inl h
          · rcases List.mem_cons.mp hl with hl1 | hl1
            · exfalso
              have : p.2 = l := congrArg Prod.snd hl1.symm
              rw [← this] at hf
              rw [h2] at hf
              cases hf
            · exact Or.inr ⟨l, hl1, he, hf⟩
      · rw [if_neg h2, ih]
        rw [Bool.not_eq_true] at h2
        constructor
        · rintro (h | ⟨l, hl, he, hf⟩)
          · rcases List.mem_append.mp h with h3 | h3
            · exact Or.inl h3
            · rw [List.mem_singleton] at h3
              subst h3
              exact Or.inr ⟨p.2, List.mem_cons_self p ps, h1, h2⟩
          · exact Or.inr ⟨l, List.mem_cons_of_mem p hl, he, hf⟩
        · rintro (h | ⟨l, hl, he, hf⟩)
          · exact Or.inl (List.mem_append.mpr (Or.inl h))
          · rcases List.mem_cons.mp hl with hl1 | hl1
            · exact Or.inl (List.mem_append.mpr (Or.inr (by
                rw [List.mem_singleton]
                exact congrArg Prod.fst hl1)))
            · exact Or.inr ⟨l, hl1, he, hf⟩

/-- Membership in `FS_NOT_SAME_LIST` in terms of the final dict entry. -/
theorem mem_fsNotSameList_iff (st : ParseState) (hnd : GoodSt st) (fp : List Char)
    (l : List ℚ) (hlk : lookupA fp st.per_file_block6_channel_fs = some l) :
    fp ∈ fsNotSameList st ↔ l.isEmpty = false ∧ floats_all_equal l = false := by
  rw [fsNotSameList, mem_fsNotSame_foldl]
  constructor
  · rintro (h | ⟨l2, hl2, he, hf⟩)
    · simp at h
    · have hll := lookupA_eq_some_of_mem_nodup hnd.nodup_b6 hl2
      rw [hlk] at hll
      rw [← Option.some_inj.mp hll] at he hf
      exact ⟨he, hf⟩
  · rintro ⟨he, hf⟩
    exact Or.inr ⟨l, mem_of_lookupA_eq_some hlk, he, hf⟩

/-! ### Lemmas on the case-insensitive matchers and word scanner -/

theorem dropCI_cons (p c : Char) (ps cs : List Char) :
    dropCI (p :: ps) (c :: cs) =
      if pyLower p = pyLower c then dropCI ps cs else none := rfl

theorem dropCI_some_cons {p : Char} {ps s r : List Char}
    (h : dropCI (p :: ps) s = some r) :
    ∃ c cs, s = c :: cs ∧ pyLower p = pyLower c := by
  cases s with
  | nil => cases h
  | cons c cs =>
    rw [dropCI_cons] at h
    by_cases hc : pyLower p = pyLower c
    · exact ⟨c, cs, rfl, hc⟩
    · rw [if_neg hc] at h
      cases h

theorem wordAt_eq (kw s : List Char) :
    wordAt kw s = match dropCI kw s with
                  | none => false
                  | some [] => true
                  | some (c :: _) => !isWordChar c := rfl

theorem wordAt_head {k c : Char} {ks cs : List Char}
    (h : wordAt (k :: ks) (c :: cs) = true) : pyLower k = pyLower c := by
  cases hdc : dropCI (k :: ks) (c :: cs) with
  | none =>
    rw [wordAt_eq, hdc] at h
    cases h
  | some r =>
    rw [dropCI_cons] at hdc
    by_cases hc : pyLower k = pyLower c
    · exact hc
    · rw [if_neg hc] at hdc
      cases hdc

theorem pyLower_head_of_eegWordAt {c : Char} {cs : List Char}
    (h : eegWordAt (c :: cs) = true) : pyLower c = 'e' := by
  rw [eegWordAt, Bool.or_eq_true, Bool.or_eq_true] at h
  have he : pyLower 'E' = 'e' := by decide
  rcases h with (h1 | h1) | h1
  · rw [← wordAt_head (show wordAt ('E' :: "EG".data) (c :: cs) = true from h1), he]
  · rw [← wordAt_head (show wordAt ('E' :: "CG".data) (c :: cs) = true from h1), he]
  · rw [← wordAt_head (show wordAt ('E' :: "KG".data) (c :: cs) = true from h1), he]

theorem scanWord_eeg_exists {s : List Char} :
    ∀ pw : Bool, scanWord eegWordAt pw s = true → ∃ c ∈ s, pyLower c = 'e' := by
  induction s with
  | nil =>
    intro pw h
    cases h
  | cons c cs ih =>
    intro pw h
    rw [scanWord, Bool.or_eq_true] at h
    rcases h with h | h
    · rw [Bool.and_eq_true] at h
      exact ⟨c, List.mem_cons_self c cs, pyLower_head_of_eegWordAt h.2⟩
    · obtain ⟨c2, hc2, he2⟩ := ih (isWordChar c) h
      exact ⟨c2, List.mem_cons_of_mem c hc2, he2⟩

theorem space_upper_of_pyLower_e {c : Char} (h : pyLower c = 'e') :
    pyIsSpace c = false ∧ isUpperAZ (pyUpper c) = true := by
  rw [pyLower] at h
  by_cases hr : 65 ≤ c.toNat ∧ c.toNat ≤ 90
  · constructor
    · rw [pyIsSpace]
      simp only [Bool.or_eq_false_iff, decide_eq_false_iff_not]
      omega
    · rw [pyUpper, if_neg (by omega), isUpperAZ]
      simp only [Bool.and_eq_true, decide_eq_true_eq]
      omega
  · rw [if_neg hr] at h
    subst h
    decide

/-- A label passing the EEG/ECG/EKG standalone-word test has, after
normalization, at least one character in `A`–`Z`: the `[A-Z]` guard of the
histogram increment cannot fail for it. -/
theorem hasUpper_norm_of_eegSearch {s : List Char} (h : eegSearch s = true) :
    hasUpperAZ (normalize_label_preserve s) = true := by
  obtain ⟨c, hc, he⟩ := scanWord_eeg_exists false h
  obtain ⟨hsp, hup⟩ := space_upper_of_pyLower_e he
  rw [normalize_label_preserve, hasUpperAZ, List.any_eq_true]
  exact ⟨pyUpper c, List.mem_map.mpr ⟨c, mem_pyStrip_of_not_space hsp hc, rfl⟩, hup⟩

theorem isEmpty_false_of_hasUpper {s : List Char} (h : hasUpperAZ s = true) :
    s.isEmpty = false := by
  cases s with
  | nil => cases h
  | cons c cs => rfl

/-! ### Matcher disjointness -/

theorem pyLower_id_of_ge {d : Char} (hd : 97 ≤ d.toNat) : pyLower d = d := by
  rw [pyLower, if_neg (by omega)]

theorem isDig_false_of_pyLower {c d : Char} (hd : 97 ≤ d.toNat)
    (h : pyLower c = d) : isDig c = false := by
  rw [Bool.eq_false_iff]
  intro hdig
  rw [isDig, Bool.and_eq_true, decide_eq_true_eq, decide_eq_true_eq] at hdig
  rw [pyLower] at h
  by_cases hr : 65 ≤ c.toNat ∧ c.toNat ≤ 90
  · omega
  · rw [if_neg hr] at h
    have := congrArg Char.toNat h
    omega

/-- A line whose whitespace-stripped start matches a keyword beginning with a
lowercase letter cannot be a record-start line. -/
theorem fileStart_none_of_dropCI {d : Char} {ds line r : List Char}
    (hd : 97 ≤ d.toNat)
    (h : dropCI (d :: ds) (line.dropWhile pyIsSpace) = some r) :
    fileStartMatch line = none := by
  obtain ⟨c, cs, hs, hc⟩ := dropCI_some_cons h
  have hcd : pyLower c = d := by
    rw [← hc, pyLower_id_of_ge hd]
  have hdig : isDig c = false := isDig_false_of_pyLower hd hcd
  rw [fileStartMatch, hs, List.takeWhile_cons, hdig]
  simp only [Bool.false_eq_true, if_false, List.isEmpty_nil, if_true]

theorem hdrMatch_none_of_channel {line : List Char} {x : ℚ × List Char}
    (h : channelLabelMatch line = some x) : hdrMatch line = none := by
  rw [channelLabelMatch] at h
  cases hd : dropCI "channel".data (line.dropWhile pyIsSpace) with
  | none =>
    rw [hd] at h
    cases h
  | some r =>
    obtain ⟨c, cs, hs, hc⟩ := dropCI_some_cons hd
    have hcc : pyLower c = 'c' := by
      rw [← hc]
      decide
    rw [hdrMatch, hs]
    rw [show ("hdr_sample_frequency".data) = 'h' :: "dr_sample_frequency".data from rfl,
        dropCI_cons, hcc]
    rw [if_neg (by decide)]

theorem fileStart_none_of_channel {line : List Char} {x : ℚ × List Char}
    (h : channelLabelMatch line = some x) : fileStartMatch line = none := by
  rw [channelLabelMatch] at h
  cases hd : dropCI "channel".data (line.dropWhile pyIsSpace) with
  | none =>
    rw [hd] at h
    cases h
  | some r =>
    exact fileStart_none_of_dropCI (by decide)
      (show dropCI ('c' :: "hannel".data) (line.dropWhile pyIsSpace) = some r from hd)

/-! ### Characterization of the record-start matcher -/

theorem not_space_of_isDig {c : Char} (h : isDig c = true) : pyIsSpace c = false := by
  rw [isDig, Bool.and_eq_true, decide_eq_true_eq, decide_eq_true_eq] at h
  rw [pyIsSpace]
  simp only [Bool.or_eq_false_iff, decide_eq_false_iff_not]
  omega

theorem isDig_colon_false : isDig ':' = false := by decide

theorem fileStartMatch_iff (line cap : List Char) :
    fileStartMatch line = some cap ↔
      ∃ ws ds rest, line = ws ++ ds ++ ':' :: rest ∧
        (∀ c ∈ ws, pyIsSpace c = true) ∧ ds ≠ [] ∧ (∀ c ∈ ds, isDig c = true) ∧
        cap = rest.dropWhile pyIsSpace ∧ cap ≠ [] := by
  constructor
  · intro h
    simp only [fileStartMatch] at h
    split at h
    · cases h
    · rename_i hde
      split at h
      · rename_i c r2 hm
        split at h
        · cases h
        · rename_i hce
          refine ⟨line.takeWhile pyIsSpace, (line.dropWhile pyIsSpace).takeWhile isDig,
                  r2, ?_, ?_, ?_, ?_, ?_, ?_⟩
          · conv_lhs => rw [← List.takeWhile_append_dropWhile pyIsSpace line]
            rw [List.append_assoc]
            congr 1
            conv_lhs => rw [← List.takeWhile_append_dropWhile isDig
                              (line.dropWhile pyIsSpace)]
            rw [hm]
          · intro c2 hc2
            exact List.mem_takeWhile_imp hc2
          · rw [ne_eq, ← List.isEmpty_iff]
            simp only [Bool.not_eq_true]
            rw [Bool.eq_false_iff]
            exact hde
          · intro c2 hc2
            exact List.mem_takeWhile_imp hc2
          · exact (Option.some_inj.mp h).symm
          · rw [← Option.some_inj.mp h, ne_eq, ← List.isEmpty_iff]
            simp only [Bool.not_eq_true]
            rw [Bool.eq_false_iff]
            exact hce
      · cases h
  · rintro ⟨ws, ds, rest, hline, hws, hne, hdig, hcap, hcapne⟩
    cases ds with
    | nil => exact absurd rfl hne
    | cons d0 ds' =>
      have hd0 : isDig d0 = true := hdig d0 (List.mem_cons_self d0 ds')
      have ht : line.dropWhile pyIsSpace = (d0 :: ds') ++ ':' :: rest := by
        rw [hline, List.append_assoc, dropWhile_append_of_all _ hws,
            List.cons_append, List.dropWhile_cons, not_space_of_isDig hd0]
        simp only [Bool.false_eq_true, if_false]
      have htake := @takeWhile_append_stop isDig (d0 :: ds') ':' rest hdig
        isDig_colon_false
      have hdrop := @dropWhile_append_stop isDig (d0 :: ds') ':' rest hdig
        isDig_colon_false
      simp only [fileStartMatch, ht, htake, hdrop, List.isEmpty_cons,
                 Bool.false_eq_true, if_false]
      rw [← hcap, List.isEmpty_eq_false.mpr hcapne]
      simp only [Bool.false_eq_true, if_false]

/-! ### The block-6 gate as a function of marker events -/

theorem gateAfter_eq_markerStatus (prev : Bool) (line : List Char) :
    gateAfter prev line = (markerStatus line).getD prev := by
  rw [gateAfter, markerStatus]
  by_cases hp : phraseBlock6 line = true
  · simp only [hp, if_true, Option.getD_some]
  · simp only [Bool.not_eq_true] at hp
    simp only [hp, Bool.false_eq_true, if_false]
    cases blockStartMatch line with
    | some n => rfl
    | none => rfl

/-- Over boundary-free lines of an active record, the gate equals the fold
of the per-line marker status over the previous gate value. -/
theorem in_block6_run (lines2 : List (List Char)) :
    ∀ (st : ParseState) (fp : List Char), st.current_fp = some fp →
      (∀ l ∈ lines2, fileStartMatch l = none) →
      (lines2.foldl step st).in_block6 =
        lines2.foldl (fun b l => (markerStatus l).getD b) st.in_block6 := by
  induction lines2 with
  | nil =>
    intro st fp h1 h2
    rfl
  | cons l ls ih =>
    intro st fp h1 h2
    have hl : fileStartMatch l = none := h2 l (List.mem_cons_self l ls)
    obtain ⟨c1, c2, _⟩ := step_active_fields st fp l hl h1
    rw [List.foldl_cons, List.foldl_cons,
        ih (step st l) fp c1 (fun x hx => h2 x (List.mem_cons_of_mem l hx)),
        c2, gateAfter_eq_markerStatus]

/-! ### Frame lemmas for `fs_all` -/

/-- A line with no header-frequency match preserves every existing binding
of `fs_all` (a record-start line only `setdefault`s). -/
theorem step_fs_preserve (st : ParseState) (line k : List Char) (v : Option ℚ)
    (h3 : hdrMatch line = none) (hlk : lookupA k st.fs_all = some v) :
    lookupA k (step st line).fs_all = some v := by
  cases hfs : fileStartMatch line with
  | some cap =>
    rw [(step_start_fields st line cap hfs).2.2.2.2.2.1]
    exact lookupA_setdefaultA_of_some hlk
  | none =>
    cases hcur : st.current_fp with
    | none =>
      rw [step_none_none st line hfs hcur]
      exact hlk
    | some fp =>
      rw [(step_active_fields st fp line hfs hcur).2.2.2.1]
      simp only [fsAllAfter, h3]
      exact hlk

/-- Runs without header-frequency lines preserve existing `fs_all` bindings. -/
theorem run_fs_preserve (lines2 : List (List Char)) :
    ∀ (st : ParseState) (k : List Char) (v : Option ℚ),
      lookupA k st.fs_all = some v →
      (∀ l ∈ lines2, hdrMatch l = none) →
      lookupA k (lines2.foldl step st).fs_all = some v := by
  induction lines2 with
  | nil =>
    intro st k v hlk _
    exact hlk
  | cons l ls ih =>
    intro st k v hlk h2
    rw [List.foldl_cons]
    exact ih (step st l) k v
      (step_fs_preserve st l k v (h2 l (List.mem_cons_self l ls)) hlk)
      (fun x hx => h2 x (List.mem_cons_of_mem l hx))

/-! ### End-of-input vs boundary finalization -/

theorem finalizeEOF_of_pending_empty (st : ParseState)
    (h : st.pending_chan_labels.isEmpty = true) : finalizeEOF st = st := by
  cases hc : st.current_fp with
  | none => simp only [finalizeEOF, hc]
  | some fp => simp only [finalizeEOF, hc, h, if_true]

/-- The final state's ghost list of started keys is the record-start captures
of the input. -/
theorem ghost_started_final (lines : List (List Char)) :
    (parseSummary lines).ghost_started_keys = startedKeys lines := by
  rw [parseSummary, (finalizeEOF_fields (runLines lines)).2.2.2.2.1, runLines,
      ghost_started_run lines initState]
  rfl

/-! ### The channel-line extraction branch -/

/-- An excluded labelled channel line leaves the block-6 frequency list and
the histogram unchanged. -/
theorem channel_excluded_noop (st : ParseState) (fp line : List Char) (ch_fs : ℚ)
    (rawLab : List Char) (h1 : st.current_fp = some fp)
    (h3 : channelLabelMatch line = some (ch_fs, rawLab))
    (h4 : excludeSearch (pyStrip rawLab) = true) :
    (step st line).per_file_block6_channel_fs = st.per_file_block6_channel_fs ∧
    (step st line).electrodes_all = st.electrodes_all := by
  have hfs : fileStartMatch line = none := fileStart_none_of_channel h3
  have hhdr : hdrMatch line = none := hdrMatch_none_of_channel h3
  obtain ⟨_, _, _, _, _, c6, c7, _⟩ := step_active_fields st fp line hfs h1
  constructor
  · rw [c6]
    simp only [b6fsAfter, hhdr, h3, h4, Bool.not_true, Bool.and_false,
               Bool.false_eq_true, if_false]
  · rw [c7]
    simp only [electrodesAfter, hhdr, h3, h4, Bool.not_true, Bool.and_false,
               Bool.false_eq_true, if_false]

/-- A qualifying labelled channel line increments the histogram count of its
normalized label by exactly one. -/
theorem channel_qualifying_incr (st : ParseState) (fp line : List Char) (ch_fs : ℚ)
    (rawLab : List Char) (h1 : st.current_fp = some fp)
    (h2 : gateAfter st.in_block6 line = true)
    (h3 : channelLabelMatch line = some (ch_fs, rawLab))
    (h4 : eegSearch (pyStrip rawLab) = true)
    (h5 : excludeSearch (pyStrip rawLab) = false) :
    countA (normalize_label_preserve (pyStrip rawLab)) (step st line).electrodes_all =
      countA (normalize_label_preserve (pyStrip rawLab)) st.electrodes_all + 1 := by
  have hfs : fileStartMatch line = none := fileStart_none_of_channel h3
  have hhdr : hdrMatch line = none := hdrMatch_none_of_channel h3
  obtain ⟨_, _, _, _, _, _, c7, _⟩ := step_active_fields st fp line hfs h1
  have hup : hasUpperAZ (normalize_label_preserve (pyStrip rawLab)) = true :=
    hasUpper_norm_of_eegSearch h4
  have hemp : (normalize_label_preserve (pyStrip rawLab)).isEmpty = false :=
    isEmpty_false_of_hasUpper hup
  rw [c7]
  simp only [electrodesAfter, hhdr, h3, h2, h4, h5, hemp, hup, Bool.not_false,
             Bool.and_true, Bool.true_and, if_true]
  exact countA_incrA_self _ _

theorem eof_vs_boundary (lines : List (List Char)) :
    (parseSummary lines).ELECTRODES_NOT_UNIQUE_LIST =
      (parseSummary (lines ++ [boundary_line])).ELECTRODES_NOT_UNIQUE_LIST := by
  have hb : fileStartMatch boundary_line = some "XEOF".data := by decide
  have hrun : runLines (lines ++ [boundary_line]) =
      step (runLines lines) boundary_line := by
    rw [runLines, runLines, List.foldl_append, List.foldl_cons, List.foldl_nil]
  obtain ⟨s1, s2, s3, s4, s5, s6, s7, s8, s9, s10, s11, s12⟩ :=
    step_start_fields (runLines lines) boundary_line "XEOF".data hb
  obtain ⟨f1, f2, f3, f4, f5, f6, f7, f8, f9⟩ := finalizeEOF_fields (runLines lines)
  rw [parseSummary, parseSummary, hrun,
      finalizeEOF_of_pending_empty (step (runLines lines) boundary_line)
        (by rw [s4]; rfl), f8, s11]

theorem eof_batches (lines : List (List Char)) (fp : List Char)
    (h1 : (runLines lines).current_fp = some fp)
    (h2 : (runLines lines).pending_chan_labels.isEmpty = false) :
    (parseSummary lines).ghost_batches =
      (runLines lines).ghost_batches ++
        [(fp, (runLines lines).pending_chan_labels.map normalize_label_preserve)] := by
  rw [parseSummary, (finalizeEOF_fields (runLines lines)).2.2.2.2.2.2.2.2, h1, h2]
  simp only [Bool.false_eq_true, if_false]
  rw [process_pending_eq]

/-! ### The claims -/

/-- C1: over any input, a key of the final per-record block-6 frequency dict
is in `FS_NOT_SAME_LIST` exactly when its list is non-empty and some element
differs from the first element by more than `1e-6` in absolute value; in
particular the record whose list is `[100.0, 100.0000005]` is not flagged,
the record whose list is `[100.0, 100.01]` is flagged, and a record whose
list is empty is never flagged. -/
theorem C1_thm :
    (∀ (lines : List (List Char)) (fp : List Char) (l : List ℚ),
       lookupA fp (parseSummary lines).per_file_block6_channel_fs = some l →
       (fp ∈ fsNotSameList (parseSummary lines) ↔
         l ≠ [] ∧ ∃ x ∈ l, 1 / 1000000 < |x - l.headI|)) ∧
    fsNotSameList (parseSummary ex_tol_ok) = [] ∧
    fsNotSameList (parseSummary ex_tol_bad) = ["A".data] ∧
    fsNotSameList (parseSummary ["1: A".data]) = [] := by
  refine ⟨?_, by decide, by decide, by decide⟩
  intro lines fp l hlk
  rw [mem_fsNotSameList_iff (parseSummary lines) (goodSt_final lines) fp l hlk]
  have hf := floats_all_equal_false_iff l
  rw [fsTol_eq] at hf
  exact and_congr List.isEmpty_eq_false hf

/-- C1 witness: the general part of `C1_thm` applied to the concrete input
`ex_tol_bad` and its dict entry. -/
theorem C1_witness :
    "A".data ∈ fsNotSameList (parseSummary ex_tol_bad) ↔
      ([mkRat 100 1, mkRat 10001 100] ≠ [] ∧
       ∃ x ∈ [mkRat 100 1, mkRat 10001 100],
         1 / 1000000 < |x - List.headI [mkRat 100 1, mkRat 10001 100]|) :=
  C1_thm.1 ex_tol_bad "A".data [mkRat 100 1, mkRat 10001 100] (by decide)

/-- C2 counterexample: in `ex_c2` the record `A` collects raw tokens
`FP1, FP1` over two label-collection batches; the combined normalized tokens
contain a duplicate, yet `A` is not placed in
`ELECTRODES_NOT_UNIQUE_LIST`, because the code finalizes and clears the
pending tokens at each `chan_trans_type` line and checks each batch
separately. -/
theorem C2_counterexample :
    (parseSummary ex_c2).ghost_record_tokens = ["FP1".data, "FP1".data] ∧
    hasDupTokens ((parseSummary ex_c2).ghost_record_tokens.map
      normalize_label_preserve) = true ∧
    "A".data ∉ (parseSummary ex_c2).ELECTRODES_NOT_UNIQUE_LIST := by decide

/-- C2 (amended): the duplicate-label check runs once per finalized
label-collection batch, not over a record's tokens taken together:
`ELECTRODES_NOT_UNIQUE_LIST` is exactly the keys of the finalized batches
whose normalized tokens contain a duplicate, in finalization order and with
one entry per such batch (so a key can appear more than once). -/
theorem C2_thm : ∀ lines : List (List Char),
    (parseSummary lines).ELECTRODES_NOT_UNIQUE_LIST =
      ((parseSummary lines).ghost_batches.filter
         (fun b => hasDupTokens b.2)).map Prod.fst :=
  fun lines => (goodSt_final lines).el_batches

/-- C3: a labelled block-6 channel line whose parenthetical label matches an
exclusion keyword as a whole word contributes nothing: the record's block-6
frequency list and the global label histogram are unchanged, even when the
label also contains `EEG` (e.g. `EEG RESP-REF`). -/
theorem C3_thm :
    ∀ (st : ParseState) (fp line : List Char) (ch_fs : ℚ) (rawLab : List Char),
      st.current_fp = some fp →
      gateAfter st.in_block6 line = true →
      channelLabelMatch line = some (ch_fs, rawLab) →
      excludeSearch (pyStrip rawLab) = true →
      (step st line).per_file_block6_channel_fs =
        st.per_file_block6_channel_fs ∧
      (step st line).electrodes_all = st.electrodes_all :=
  fun st fp line ch_fs rawLab h1 _ h3 h4 =>
    channel_excluded_noop st fp line ch_fs rawLab h1 h3 h4

/-- C3 witness: `C3_thm` applied to an active block-6 state and the line
`channel[0]: 100 Hz (EEG RESP-REF)`. -/
theorem C3_witness :
    (step (step (step initState "1: A".data) "Block 6:".data)
        "channel[0]: 100 Hz (EEG RESP-REF)".data).per_file_block6_channel_fs =
      (step (step initState "1: A".data) "Block 6:".data).per_file_block6_channel_fs ∧
    (step (step (step initState "1: A".data) "Block 6:".data)
        "channel[0]: 100 Hz (EEG RESP-REF)".data).electrodes_all =
      (step (step initState "1: A".data) "Block 6:".data).electrodes_all :=
  C3_thm (step (step initState "1: A".data) "Block 6:".data) "A".data
    "channel[0]: 100 Hz (EEG RESP-REF)".data (mkRat 100 1) "EEG RESP-REF".data
    (by decide) (by decide) (by decide) (by decide)

/-- C4 counterexample: in `ex_c4` the key `A` starts a record twice; the
first occurrence's qualifying block-6 frequencies `[100, 200]` are mutually
inconsistent beyond tolerance, the second occurrence's are consistent, and
the key is NOT marked frequency-inconsistent: the second start resets the
key's frequency list. -/
theorem C4_counterexample :
    lookupA "A".data (runLines (ex_c4.take 4)).per_file_block6_channel_fs =
      some [mkRat 100 1, mkRat 200 1] ∧
    floats_all_equal [mkRat 100 1, mkRat 200 1] = false ∧
    fsNotSameList (parseSummary ex_c4) = [] := by decide

/-- C4 (amended): duplicate record keys are finalized as two events for the
label aggregates, but the per-key block-6 frequency list is reset to empty
at every record start, so the frequency-inconsistency flag reflects only the
frequencies collected after the key's last record start. -/
theorem C4_thm :
    ∀ (st : ParseState) (line cap : List Char),
      fileStartMatch line = some cap →
      lookupA (pyStrip cap) (step st line).per_file_block6_channel_fs =
        some [] := by
  intro st line cap h
  rw [(step_start_fields st line cap h).2.2.2.2.2.2.1]
  exact lookupA_setA_self (pyStrip cap) [] st.per_file_block6_channel_fs

/-- C4 witness: `C4_thm` applied to the duplicate start of `ex_c4`. -/
theorem C4_witness :
    lookupA (pyStrip "A".data)
        (step (runLines (ex_c4.take 4)) "2: A".data).per_file_block6_channel_fs =
      some [] :=
  C4_thm (runLines (ex_c4.take 4)) "2: A".data "A".data (by decide)

/-- C5: a line opens a record iff it decomposes as optional leading
whitespace, a non-empty digit run, a colon, optional whitespace and a
non-empty remainder (the capture, whose trimmed form becomes the new
record's key); a would-be start with an empty remainder matches nothing, and
a non-start line seen with no active record leaves the state unchanged. -/
theorem C5_thm :
    (∀ line cap : List Char,
       fileStartMatch line = some cap ↔
         ∃ ws ds rest, line = ws ++ ds ++ ':' :: rest ∧
           (∀ c ∈ ws, pyIsSpace c = true) ∧ ds ≠ [] ∧
           (∀ c ∈ ds, isDig c = true) ∧
           cap = rest.dropWhile pyIsSpace ∧ cap ≠ []) ∧
    (∀ (st : ParseState) (line cap : List Char),
       fileStartMatch line = some cap →
       (step st line).current_fp = some (pyStrip cap)) ∧
    (∀ (st : ParseState) (line : List Char), st.current_fp = none →
       fileStartMatch line = none → step st line = st) :=
  ⟨fileStartMatch_iff,
   fun st line cap h => (step_start_fields st line cap h).1,
   fun st line h1 h2 => step_none_none st line h2 h1⟩

/-- C5 witness: a record-start line sets the trimmed key, and a non-start
line before any record is a no-op. -/
theorem C5_witness :
    (step initState "1: fileA.rec".data).current_fp =
      some (pyStrip "fileA.rec".data) ∧
    step initState "garbage".data = initState :=
  ⟨C5_thm.2.1 initState "1: fileA.rec".data "fileA.rec".data (by decide),
   C5_thm.2.2 initState "garbage".data rfl (by decide)⟩

/-- C6: the key set of the final `fs_all` is exactly the set of keys that
ever started a record, and a started key with no header-frequency event
while active is present with the explicit unset value `None`. -/
theorem C6_thm : ∀ (lines : List (List Char)) (k : List Char),
    ((lookupA k (parseSummary lines).fs_all).isSome ↔ k ∈ startedKeys lines) ∧
    (k ∈ startedKeys lines → k ∉ (parseSummary lines).ghost_hdr_keys →
       lookupA k (parseSummary lines).fs_all = some none) := by
  intro lines k
  have hg := goodSt_final lines
  have hks := hg.keys_started k
  rw [ghost_started_final] at hks
  refine ⟨hks, fun hk hhdr => ?_⟩
  have hsome : (lookupA k (parseSummary lines).fs_all).isSome := hks.mpr hk
  cases hv : lookupA k (parseSummary lines).fs_all with
  | none =>
    rw [hv] at hsome
    cases hsome
  | some v => rw [hg.no_hdr_none k v hhdr hv]

/-- C6 witness: `C6_thm` on `ex_tol_ok`, whose record `A` has no
`hdr_sample_frequency` line. -/
theorem C6_witness :
    ((lookupA "A".data (parseSummary ex_tol_ok).fs_all).isSome ↔
       "A".data ∈ startedKeys ex_tol_ok) ∧
    lookupA "A".data (parseSummary ex_tol_ok).fs_all = some none :=
  ⟨(C6_thm ex_tol_ok "A".data).1,
   (C6_thm ex_tol_ok "A".data).2 (by decide) (by decide)⟩

/-- C7: over the boundary-free lines of an active record, the block-6 gate
equals the fold of the per-line marker status — `some true` for a line with
a marker phrase (overriding any explicit block number on the same line),
`some (n = 6)` for an explicit `Block n:` line, `none` (gate unchanged)
otherwise — and the gate is reset to inactive by every record start. -/
theorem C7_thm :
    (∀ (st : ParseState) (fp : List Char) (lines2 : List (List Char)),
       st.current_fp = some fp →
       (∀ l ∈ lines2, fileStartMatch l = none) →
       (lines2.foldl step st).in_block6 =
         lines2.foldl (fun b l => (markerStatus l).getD b) st.in_block6) ∧
    (∀ (st : ParseState) (line cap : List Char),
       fileStartMatch line = some cap → (step st line).in_block6 = false) :=
  ⟨fun st fp ls h1 h2 => in_block6_run ls st fp h1 h2,
   fun st line cap h => (step_start_fields st line cap h).2.1⟩

/-- C7 witness: `C7_thm` applied to a record with a `Block 3:` line, a
marker-phrase line and a plain line, and to a fresh record start. -/
theorem C7_witness :
    ((["Block 3:".data, "per channel sample frequencies".data,
       "hello".data].foldl step (step initState "1: A".data)).in_block6 =
      ["Block 3:".data, "per channel sample frequencies".data,
       "hello".data].foldl (fun b l => (markerStatus l).getD b)
        (step initState "1: A".data).in_block6) ∧
    (step initState "2: B".data).in_block6 = false :=
  ⟨C7_thm.1 (step initState "1: A".data) "A".data
     ["Block 3:".data, "per channel sample frequencies".data, "hello".data]
     (by decide) (by decide),
   C7_thm.2 initState "2: B".data "B".data (by decide)⟩

/-- C8: ending the input while label collection is in progress still
finalizes the active record: the duplicate list is the same as if a record
boundary had followed, and the tokens batch-checked at end of input are
exactly the pending tokens collected so far. -/
theorem C8_thm :
    (∀ lines : List (List Char),
       (parseSummary lines).ELECTRODES_NOT_UNIQUE_LIST =
         (parseSummary (lines ++ [boundary_line])).ELECTRODES_NOT_UNIQUE_LIST) ∧
    (∀ (lines : List (List Char)) (fp : List Char),
       (runLines lines).current_fp = some fp →
       (runLines lines).pending_chan_labels.isEmpty = false →
       (parseSummary lines).ghost_batches =
         (runLines lines).ghost_batches ++
           [(fp, (runLines lines).pending_chan_labels.map
               normalize_label_preserve)]) :=
  ⟨eof_vs_boundary, eof_batches⟩

/-- C8 witness: `C8_thm` on an input that ends mid-collection. -/
theorem C8_witness :
    (parseSummary ["1: A".data, "chan_labels (1) = [FP1]".data]).ghost_batches =
      (runLines ["1: A".data, "chan_labels (1) = [FP1]".data]).ghost_batches ++
        [("A".data,
          (runLines ["1: A".data,
             "chan_labels (1) = [FP1]".data]).pending_chan_labels.map
            normalize_label_preserve)] :=
  C8_thm.2 ["1: A".data, "chan_labels (1) = [FP1]".data] "A".data
    (by decide) (by decide)

/-- C9: a label passing the EEG/ECG/EKG standalone-word test normalizes to a
string containing a character in `A`–`Z`, so the `[A-Z]` guard never blocks
the increment: every qualifying channel line increments the histogram count
of its normalized label by exactly one. -/
theorem C9_thm :
    (∀ s : List Char, eegSearch s = true →
       hasUpperAZ (normalize_label_preserve s) = true) ∧
    (∀ (st : ParseState) (fp line : List Char) (ch_fs : ℚ) (rawLab : List Char),
       st.current_fp = some fp →
       gateAfter st.in_block6 line = true →
       channelLabelMatch line = some (ch_fs, rawLab) →
       eegSearch (pyStrip rawLab) = true →
       excludeSearch (pyStrip rawLab) = false →
       countA (normalize_label_preserve (pyStrip rawLab))
           (step st line).electrodes_all =
         countA (normalize_label_preserve (pyStrip rawLab))
           st.electrodes_all + 1) :=
  ⟨fun _ h => hasUpper_norm_of_eegSearch h,
   fun st fp line ch_fs rawLab h1 h2 h3 h4 h5 =>
     channel_qualifying_incr st fp line ch_fs rawLab h1 h2 h3 h4 h5⟩

/-- C9 witness: `C9_thm` on the label `EEG FP1` and a qualifying channel
line in an active block-6 record. -/
theorem C9_witness :
    hasUpperAZ (normalize_label_preserve "EEG FP1".data) = true ∧
    countA (normalize_label_preserve (pyStrip "EEG FP1".data))
        (step (step (step initState "1: A".data) "Block 6:".data)
           "channel[0]: 100 Hz (EEG FP1)".data).electrodes_all =
      countA (normalize_label_preserve (pyStrip "EEG FP1".data))
        (step (step initState "1: A".data) "Block 6:".data).electrodes_all + 1 :=
  ⟨C9_thm.1 "EEG FP1".data (by decide),
   C9_thm.2 (step (step initState "1: A".data) "Block 6:".data) "A".data
     "channel[0]: 100 Hz (EEG FP1)".data (mkRat 100 1) "EEG FP1".data
     (by decide) (by decide) (by decide) (by decide) (by decide)⟩

/-- C10: a record start for a key already bound in `fs_all` preserves the
existing value (`setdefault`), and over any lines with no
`hdr_sample_frequency` match an existing binding never changes. -/
theorem C10_thm :
    (∀ (st : ParseState) (line cap : List Char) (v : Option ℚ),
       fileStartMatch line = some cap →
       lookupA (pyStrip cap) st.fs_all = some v →
       lookupA (pyStrip cap) (step st line).fs_all = some v) ∧
    (∀ (st : ParseState) (lines2 : List (List Char)) (k : List Char)
       (v : Option ℚ),
       lookupA k st.fs_all = some v →
       (∀ l ∈ lines2, hdrMatch l = none) →
       lookupA k (lines2.foldl step st).fs_all = some v) := by
  constructor
  · intro st line cap v h hlk
    rw [(step_start_fields st line cap h).2.2.2.2.2.1]
    exact lookupA_setdefaultA_of_some hlk
  · intro st lines2 k v hlk h2
    exact run_fs_preserve lines2 st k v hlk h2

/-- C10 witness: `C10_thm` on a record whose frequency is 250: a duplicate
start and a header-free suffix both leave the binding at 250. -/
theorem C10_witness :
    lookupA (pyStrip "K".data)
        (step (runLines ["1: K".data, "hdr_sample_frequency = 250".data])
           "7: K".data).fs_all = some (some (mkRat 250 1)) ∧
    lookupA "K".data
        (["2: L".data].foldl step
           (runLines ["1: K".data,
              "hdr_sample_frequency = 250".data])).fs_all =
      some (some (mkRat 250 1)) :=
  ⟨C10_thm.1 (runLines ["1: K".data, "hdr_sample_frequency = 250".data])
     "7: K".data "K".data (some (mkRat 250 1)) (by decide) (by decide),
   C10_thm.2 (runLines ["1: K".data, "hdr_sample_frequency = 250".data])
     ["2: L".data] "K".data (some (mkRat 250 1)) (by decide) (by decide)⟩
